import Mathlib

/-!
# Antimony `Datum`: the dependency-propagation core of `src/datum/datum.cpp`

A shallow embedding of `Datum` (constructor, `hasInputValue`, `canEdit`,
`acceptsLink`, `addLink`, `deleteLink`, `update`, `postInit`,
`onDisconnectRequest`, `connectUpstream`) over an explicit heap of datums and
links, a table of Qt signal/slot connections and a log of the signals emitted
and the collaborator calls made.

Modelling conventions
* A `Datum*` / `Link*` is an index into the heap (`DatumId`, `LinkId`); every
  pointer handed to a method denotes a live object.  A `PyObject*` is the
  identity of a Python object, `NULL` is `none`.
* A member function is a function of the world and of the identity of `this`.
  A member function that dereferences a `NULL` member returns `none`.
* `emit` appends the signal to the log.  The slots connected to
  `disconnectFrom` are all `onDisconnectRequest` of this file and are run in
  place.  `update` and `addLink` are the method bodies, their `emit changed()`
  statements recorded; `updateD` and `addLinkD` are the calls with the
  synchronous delivery of `changed` to the subscribed `update` slots, and
  `destroyLinkD` delivers `destroyed` of a link to the receivers connected by
  `addLink`.
* The classes declared outside `datum.cpp` are parameters: the input handler
  is a state `H` with its virtual methods (`InputHandler H`), the virtual
  methods of the datum subclass and the Python comparison are the per-call
  answers collected in `Env`.
-/

namespace Antimony

/-- Identity (address) of a `Datum` object. -/
abbrev DatumId := Nat

/-- Identity (address) of a `Link` object. -/
abbrev LinkId := Nat

/-- Identity (address) of a Python object; a `PyObject*` is an `Option PyObj`. -/
abbrev PyObj := Nat

/-- A `Link`: a child object of its source datum (`parent()`), with the target
set by `setTarget`. -/
structure Link where
  parent : DatumId
  target : Option DatumId
deriving DecidableEq, Repr

/-- The data members of `Datum`.  `recursing` is the answer of the virtual
`isRecursing()`, which `update` reads and never writes. -/
structure Datum (H : Type) where
  objectName : String
  value : Option PyObj
  valid : Bool
  editable : Bool
  repr : String
  input_handler : Option H
  post_init_called : Bool
  _upstream : Finset DatumId
  recursing : Bool
deriving DecidableEq

/-- The signals of `Datum` and `Link` used in `datum.cpp`. -/
inductive Signal where
  | changed
  | destroyed
  | disconnectFrom
deriving DecidableEq, Repr

/-- The receiving end of a connection: a slot, or the signal `changed`. -/
inductive Method where
  | update
  | deleteLater
  | changed
  | onDisconnectRequest
deriving DecidableEq, Repr

/-- A `QObject` taking part in a connection. -/
inductive Obj where
  | datum (d : DatumId)
  | link (l : LinkId)
deriving DecidableEq, Repr

/-- One entry of the connection table built by `connect`. -/
structure Conn where
  sender : Obj
  signal : Signal
  receiver : Obj
  method : Method
deriving DecidableEq, Repr

/-- What a method body does to the outside: signals emitted and calls made to
collaborators. -/
inductive Event where
  | changed (d : DatumId)
  | disconnectFrom (d : DatumId)
  | onNameChange (name : String)
  | newRenderTask (d : DatumId)
  | getValue (d : DatumId)
  | getCurrentValue (d : DatumId)
  | getString (d : DatumId)
deriving DecidableEq, Repr

/-- The virtual methods of the input handler, over its state `H`.  A method
that takes a `Link*` sees the identity of the link and the link. -/
structure InputHandler (H : Type) where
  hasInput : H → Bool
  accepts : H → LinkId → Link → Bool
  addInput : H → LinkId → Link → H
  deleteInput : H → DatumId → H

/-- A value computation (`input_handler->getValue()` or `getCurrentValue()`):
it may call `connectUpstream` on the datum being updated any number of times,
sees each answer, and ends with a value or `NULL`. -/
inductive Eval where
  | done (v : Option PyObj)
  | connectUpstream (u : DatumId) (k : Bool → Eval)

/-- The answers of the collaborators during one call of `update`. -/
structure Env where
  getValue : Eval
  getCurrentValue : Eval
  getString : String
  ne : PyObj → PyObj → Int
  ANTIMONY : Bool
  renderAccepts : Bool

/-- The heap, the connection table and the log. -/
structure World (H : Type) where
  datums : DatumId → Datum H
  links : LinkId → Link
  conns : List Conn
  log : List Event

variable {H : Type}

/-- Overwrite the datum at `d`. -/
def World.setDatum (w : World H) (d : DatumId) (x : Datum H) : World H :=
  { w with datums := Function.update w.datums d x }

/-- Overwrite the link at `l`. -/
def World.setLink (w : World H) (l : LinkId) (x : Link) : World H :=
  { w with links := Function.update w.links l x }

/-- Append an event to the log. -/
def World.record (w : World H) (e : Event) : World H :=
  { w with log := w.log ++ [e] }

/-- Qt `QObject::connect` with the default connection type. -/
def World.connect (w : World H) (c : Conn) : World H :=
  { w with conns := w.conns ++ [c] }

/-- Qt `QObject::connect` with `Qt::UniqueConnection`. -/
def World.connectUnique (w : World H) (c : Conn) : World H :=
  if c ∈ w.conns then w else { w with conns := w.conns ++ [c] }

/-- Qt `QObject::disconnect`: every matching connection goes. -/
def World.disconnect (w : World H) (c : Conn) : World H :=
  { w with conns := w.conns.filter (fun x => decide (x ≠ c)) }

/-- Constructor `Datum::Datum(name, parent)`.  The initialiser list sets
`value`, `valid`, `input_handler` and `post_init_called`; `repr` and
`_upstream` are default constructed; `editable` is not initialised, its
content is `editable0`; the flag read by `isRecursing()` is down. -/
def Datum.new (name : String) (editable0 : Bool) : Datum H :=
  { objectName := name, value := none, valid := false, editable := editable0,
    repr := "", input_handler := none, post_init_called := false,
    _upstream := ∅, recursing := false }

/-- Method `Datum::hasInputValue`. -/
def hasInputValue (ih : InputHandler H) (self : Datum H) : Bool :=
  match self.input_handler with
  | none => false
  | some h => ih.hasInput h

/-- Method `Datum::canEdit`. -/
def canEdit (ih : InputHandler H) (self : Datum H) : Bool :=
  !hasInputValue ih self

/-- Method `Datum::acceptsLink`; `none` is the dereference of a `NULL`
`input_handler`. -/
def acceptsLink (ih : InputHandler H) (w : World H) (d : DatumId)
    (upstream : LinkId) : Option Bool :=
  if d ∈ (w.datums (w.links upstream).parent)._upstream then
    some false
  else
    match (w.datums d).input_handler with
    | none => none
    | some h => some (ih.accepts h upstream (w.links upstream))

/-- Body of `Datum::addLink`, its two `emit changed()` (lines 60-61) recorded
in the log; the call with their delivery is `addLinkD`.  `none` is the
dereference of a `NULL` `input_handler`. -/
def addLink (ih : InputHandler H) (w : World H) (d : DatumId)
    (input : LinkId) : Option (World H) :=
  match (w.datums d).input_handler with
  | none => none
  | some h =>
    let w1 := w.setDatum d { w.datums d with input_handler := some (ih.addInput h input (w.links input)) }
    let w2 := w1.setLink input { w1.links input with target := some d }
    let w3 := w2.connect ⟨.datum d, .destroyed, .link input, .deleteLater⟩
    let w4 := w3.connect ⟨.link input, .destroyed, .datum d, .update⟩
    let w5 := w4.record (.changed d)
    let w6 := w5.record (.changed (w5.links input).parent)
    let w7 := w6.connect ⟨.link input, .destroyed, .datum d, .changed⟩
    let w8 := w7.connect ⟨.link input, .destroyed, .datum (w7.links input).parent, .changed⟩
    some w8

/-- Method `Datum::deleteLink`; `none` is the dereference of a `NULL`
`input_handler`. -/
def deleteLink (ih : InputHandler H) (w : World H) (d : DatumId)
    (upstream : DatumId) : Option (World H) :=
  match (w.datums d).input_handler with
  | none => none
  | some h =>
    some (w.setDatum d { w.datums d with input_handler := some (ih.deleteInput h upstream) })

/-- Method `Datum::postInit`. -/
def postInit (env : Env) (w : World H) (d : DatumId) : World H :=
  let w1 := w.setDatum d { w.datums d with post_init_called := true }
  let w2 := w1.record (.onNameChange (w1.datums d).objectName)
  if env.ANTIMONY && env.renderAccepts then w2.record (.newRenderTask d) else w2

/-- Slot `Datum::onDisconnectRequest`, run on the datum `u`. -/
def onDisconnectRequest (w : World H) (u : DatumId) (downstream : DatumId) : World H :=
  let w1 := w.disconnect ⟨.datum downstream, .disconnectFrom, .datum u, .onDisconnectRequest⟩
  let w2 := w1.disconnect ⟨.datum u, .changed, .datum downstream, .update⟩
  w2.disconnect ⟨.datum u, .destroyed, .datum downstream, .update⟩

/-- Method `Datum::connectUpstream`: the world after the call and the value
returned. -/
def connectUpstream (w : World H) (d : DatumId) (upstream : DatumId) : World H × Bool :=
  let w1 := w.setDatum d
    { w.datums d with _upstream := (w.datums d)._upstream ∪ (w.datums upstream)._upstream }
  let w2 := w1.connectUnique ⟨.datum upstream, .changed, .datum d, .update⟩
  let w3 := w2.connectUnique ⟨.datum upstream, .destroyed, .datum d, .update⟩
  let w4 := w3.connectUnique ⟨.datum d, .disconnectFrom, .datum upstream, .onDisconnectRequest⟩
  (w4, if d ∈ (w4.datums upstream)._upstream then false else true)

/-- The receivers of `disconnectFrom` emitted by `d`, in connection order. -/
def disconnectReceivers (cs : List Conn) (d : DatumId) : List DatumId :=
  cs.filterMap (fun c =>
    match c with
    | ⟨.datum s, .disconnectFrom, .datum u, .onDisconnectRequest⟩ =>
        if s = d then some u else none
    | _ => none)

/-- The statement `emit disconnectFrom(this)`: the signal is logged and every
connected `onDisconnectRequest` runs. -/
def emitDisconnectFrom (w : World H) (d : DatumId) : World H :=
  (disconnectReceivers w.conns d).foldl (fun acc u => onDisconnectRequest acc u d)
    (w.record (.disconnectFrom d))

/-- Run a value computation for the datum `d`. -/
def runEval : Eval → World H → DatumId → World H × Option PyObj
  | .done v, w, _ => (w, v)
  | .connectUpstream u k, w, d =>
      runEval (k (connectUpstream w d u).2) (connectUpstream w d u).1 d

/-- The C-API call `PyObject_RichCompareBool(v, w, Py_NE)`: `0` when both are
the same object, `-1` (error) when `w` is `NULL`, else the answer `ne v w` of
the rich comparison of the two objects (`-1`, `0` or `1`). -/
def PyObject_RichCompareBool_NE (ne : PyObj → PyObj → Int) (v : PyObj)
    (w : Option PyObj) : Int :=
  match w with
  | none => -1
  | some o => if v = o then 0 else ne v o

/-- Lines 115-136 of `update`: compare the candidate with the cached value.
Returns the datum and `has_changed`. -/
def storeValue (ne : PyObj → PyObj → Int) (self : Datum H)
    (new_value : Option PyObj) : Datum H × Bool :=
  match new_value with
  | none =>
      if self.valid then ({ self with valid := false }, true) else (self, false)
  | some v =>
      if !self.valid || PyObject_RichCompareBool_NE ne v self.value != 0 then
        ({ self with value := some v, valid := true }, true)
      else (self, false)

/-- Lines 138-144 of `update`. -/
def storeEditable (ih : InputHandler H) (self : Datum H) (has_changed : Bool) :
    Datum H × Bool :=
  if canEdit ih self != self.editable then
    ({ self with editable := canEdit ih self }, true)
  else (self, has_changed)

/-- Lines 146-152 of `update`. -/
def storeRepr (str : String) (self : Datum H) (has_changed : Bool) :
    Datum H × Bool :=
  if str != self.repr then ({ self with repr := str }, true)
  else (self, has_changed)

/-- Lines 115-152 of `update`: the three comparisons in order, threading
`has_changed`. -/
def storeFields (ih : InputHandler H) (env : Env) (self : Datum H)
    (new_value : Option PyObj) : Datum H × Bool :=
  let a := storeValue env.ne self new_value
  let b := storeEditable ih a.1 a.2
  storeRepr env.getString b.1 b.2

/-- Lines 100-113 of `update`: drop the old subscriptions, reset `_upstream`
and compute the candidate value. -/
def newValue (ih : InputHandler H) (env : Env) (w : World H) (d : DatumId) :
    World H × Option PyObj :=
  let w1 := emitDisconnectFrom w d
  let w2 := w1.setDatum d { w1.datums d with _upstream := {d} }
  if hasInputValue ih (w2.datums d) then
    runEval env.getValue (w2.record (.getValue d)) d
  else
    runEval env.getCurrentValue (w2.record (.getCurrentValue d)) d

/-- Lines 93-98 of `update`: the first call runs `postInit`. -/
def afterPostInit (env : Env) (w : World H) (d : DatumId) : World H :=
  if !(w.datums d).post_init_called then postInit env w d else w

/-- Body of the slot `Datum::update`, lines 84-158, its `emit changed()` (line
156) recorded in the log; the call with the delivery of that signal to the
subscribed slots is `updateD`. -/
def update (ih : InputHandler H) (env : Env) (w : World H) (d : DatumId) : World H :=
  if (w.datums d).recursing then w
  else
    let r := newValue ih env (afterPostInit env w d) d
    let c := storeFields ih env (r.1.datums d) r.2
    let w2 := (r.1.setDatum d c.1).record (.getString d)
    if c.2 then w2.record (.changed d) else w2

/-- The fields an observer of the datum sees: `value`, `valid`, `editable`,
`repr`. -/
def Datum.observable (x : Datum H) : Option PyObj × Bool × Bool × String :=
  (x.value, x.valid, x.editable, x.repr)

/-- The candidate value a call of `update` that is not suppressed computes
at lines 105-113. -/
def candidate (ih : InputHandler H) (env : Env) (w : World H) (d : DatumId) :
    Option PyObj :=
  (newValue ih env (afterPostInit env w d) d).2

/-- The content of `has_changed` when a call of `update` that is not
suppressed reaches line 154. -/
def hasChanged (ih : InputHandler H) (env : Env) (w : World H) (d : DatumId) : Bool :=
  (storeFields ih env ((newValue ih env (afterPostInit env w d) d).1.datums d)
    (candidate ih env w d)).2

/-- Semantic equality of two Python objects as `update` sees it: the
comparison `PyObject_RichCompareBool(x, y, Py_NE)` answers 0. -/
def semEq (env : Env) (x y : PyObj) : Prop :=
  PyObject_RichCompareBool_NE env.ne x (some y) = 0

/-- The world in which every datum has just been constructed by
`Datum::Datum` and every link by `new Link(owner)` (`Datum::linkFrom`); nothing
is connected and nothing has been emitted. -/
def World.init (name : DatumId → String) (editable0 : DatumId → Bool)
    (owner : LinkId → DatumId) : World H :=
  { datums := fun d => Datum.new (name d) (editable0 d),
    links := fun l => ⟨owner l, none⟩,
    conns := [],
    log := [] }

/-- The code of a datum subclass, which owns the protected members: it
installs (or leaves out) the input handler and raises or lowers the flag read
by `isRecursing()`. -/
def subclassSet (w : World H) (d : DatumId) (h : Option H) (r : Bool) : World H :=
  w.setDatum d { w.datums d with input_handler := h, recursing := r }

/-- The worlds reachable from construction by the methods of `datum.cpp`
called on any datum with any arguments and any answers of the collaborators. -/
inductive Reachable (ih : InputHandler H) : World H → Prop where
  | init (name : DatumId → String) (editable0 : DatumId → Bool)
      (owner : LinkId → DatumId) : Reachable ih (World.init name editable0 owner)
  | subclassSet {w : World H} (d : DatumId) (h : Option H) (r : Bool) :
      Reachable ih w → Reachable ih (subclassSet w d h r)
  | update {w : World H} (env : Env) (d : DatumId) :
      Reachable ih w → Reachable ih (update ih env w d)
  | addLink {w w2 : World H} (d : DatumId) (input : LinkId) :
      Reachable ih w → addLink ih w d input = some w2 → Reachable ih w2
  | deleteLink {w w2 : World H} (d : DatumId) (upstream : DatumId) :
      Reachable ih w → deleteLink ih w d upstream = some w2 → Reachable ih w2
  | connectUpstream {w : World H} (d : DatumId) (upstream : DatumId) :
      Reachable ih w → Reachable ih (connectUpstream w d upstream).1

/-! ## Sample collaborators and worlds

Concrete values for the parameters, on which the methods are evaluated. -/

/-- An input handler that holds at most one link, remembered with its source
datum: it reports input when it holds a link, accepts a link when it holds
none, and drops its link when asked to delete the input from its source. -/
def oneLink : InputHandler (Option (LinkId × DatumId)) where
  hasInput h := h.isSome
  accepts h _ _ := h.isNone
  addInput _ l x := some (l, x.parent)
  deleteInput h u :=
    match h with
    | none => none
    | some (l, p) => if p = u then none else some (l, p)

/-- Answers of the collaborators: both value computations connect to nothing
and end with `v`, the display string is `s`, two distinct Python objects
compare equal when they agree modulo 10, the build is a test build. -/
def sampleEnv (v : Option PyObj) (s : String) : Env :=
  { getValue := .done v,
    getCurrentValue := .done v,
    getString := s,
    ne := fun a b => if a % 10 = b % 10 then 0 else 1,
    ANTIMONY := false,
    renderAccepts := false }

/-- Answers of the collaborators for a datum whose expression refers to the
datum `u`: the value computation calls `connectUpstream(u)` and ends with `v`
when that call returns true, with `NULL` when it returns false. -/
def sampleEnvRef (u : DatumId) (v : PyObj) (s : String) : Env :=
  { sampleEnv (some v) s with
    getCurrentValue := .connectUpstream u (fun ok => .done (if ok then some v else none)) }

/-- Freshly constructed datums named `d`, link `l` owned by datum `l + 1`. -/
def world0 : World (Option (LinkId × DatumId)) :=
  World.init (fun _ => "d") (fun _ => false) (fun l => l + 1)

/-- The sample world after the subclass of datum 0 installed an input handler
that holds no link. -/
def world1 : World (Option (LinkId × DatumId)) :=
  subclassSet world0 0 (some none) false

/-- Datum 0 updated once: its expression evaluates to the object 5. -/
def world2 : World (Option (LinkId × DatumId)) :=
  update oneLink (sampleEnv (some 5) "5") world1 0

/-- Datum 1 updated after datum 0, with an expression that refers to
datum 0: datum 0 is upstream of datum 1. -/
def world3 : World (Option (LinkId × DatumId)) :=
  update oneLink (sampleEnvRef 0 7 "7") world2 1

/-- Datum 0 of the freshly constructed world updated twice: its expression
first evaluates to the object 5, then fails to evaluate. -/
def worldInvalidated : World (Option (LinkId × DatumId)) :=
  update oneLink (sampleEnv none "") (update oneLink (sampleEnv (some 5) "5") world0 0) 0

/-- Datum 1 updated, then datum 0 (which has the input handler) updated with
an expression that refers to datum 1: datum 1 is upstream of datum 0. -/
def worldOwnerUpstream : World (Option (LinkId × DatumId)) :=
  update oneLink (sampleEnvRef 1 7 "7")
    (update oneLink (sampleEnv (some 5) "5") world1 1) 0

/-- The sample world with the recursion flag of datum 0 raised. -/
def worldRecursing : World (Option (LinkId × DatumId)) :=
  subclassSet world2 0 (some none) true

/-! ## Sequences of calls, the value computation, destruction of a link -/

/-- The code of the datum subclass raises or lowers the flag read by
`isRecursing()` and leaves the input handler alone. -/
def setRecursing (w : World H) (d : DatumId) (r : Bool) : World H :=
  subclassSet w d (w.datums d).input_handler r

/-- A sequence of calls of `update` on the datum `d`.  Each call comes with the
state of the flag read by `isRecursing()` when the call is made and with the
answers of the collaborators during the call. -/
def updateSeq (ih : InputHandler H) : List (Bool × Env) → World H → DatumId → World H
  | [], w, _ => w
  | (r, env) :: rest, w, d => updateSeq ih rest (update ih env (setRecursing w d r) d) d

/-- The value computation that lines 105-113 of `update` run and the world in
which it starts, that is after lines 100-103; `w` is the world after lines
93-98. -/
def valueComputation (ih : InputHandler H) (env : Env) (w : World H) (d : DatumId) :
    Eval × World H :=
  let w1 := emitDisconnectFrom w d
  let w2 := w1.setDatum d { w1.datums d with _upstream := {d} }
  if hasInputValue ih (w2.datums d) then (env.getValue, w2.record (.getValue d))
  else (env.getCurrentValue, w2.record (.getCurrentValue d))

/-- The upstream sets merged by the calls of `connectUpstream` that a value
computation for the datum `d` makes, in order: for each call the set of the
datum passed, as it is when the call is made. -/
def mergedSets : Eval → World H → DatumId → List (Finset DatumId)
  | .done _, _, _ => []
  | .connectUpstream u k, w, d =>
      (w.datums u)._upstream ::
        mergedSets (k (connectUpstream w d u).2) (connectUpstream w d u).1 d

/-- The union of a list of sets. -/
def unionAll (ss : List (Finset DatumId)) : Finset DatumId :=
  ss.foldr (fun s acc => s ∪ acc) ∅

/-- The link `l` is attached to the datum `b`: the subscription made by line 54
of `addLink` (`destroyed` of the link runs `update` of the datum) is in the
connection table. -/
def Attached (w : World H) (b : DatumId) (l : LinkId) : Prop :=
  (⟨.link l, .destroyed, .datum b, .update⟩ : Conn) ∈ w.conns

/-- The receivers of `destroyed` emitted by the link `l`, in connection
order. -/
def destroyedReceivers (cs : List Conn) (l : LinkId) : List (Obj × Method) :=
  cs.filterMap (fun c =>
    if c.sender = .link l ∧ c.signal = .destroyed then some (c.receiver, c.method)
    else none)

/-! ## Synchronous delivery of signals

Qt delivers a signal inside the `emit` statement: every slot connected to it
runs, in connection order, before the statement after the `emit` is reached.
`update` and `addLink` above are the method bodies with their own `emit
changed()` statements recorded in the log; the definitions below add the
delivery.  A slot `update` that runs during a delivery is a call of its own:
it gets the next answers of the collaborators (`oracle`, indexed by the number
of calls answered so far) and delivers its own `changed` in turn.  Nothing in
`datum.cpp` bounds this nesting, so the delivering methods take the number of
nested calls they may make and return `none` when it does not suffice.  The
receivers of one emission are those connected when the emission starts. -/

/-- The datums whose slot `update` is connected to `changed` of the datum `d`
(lines 186-187 of `connectUpstream`), in connection order. -/
def changedReceivers (cs : List Conn) (d : DatumId) : List DatumId :=
  cs.filterMap (fun c =>
    match c with
    | ⟨.datum s, .changed, .datum x, .update⟩ => if s = d then some x else none
    | _ => none)

/-- A call of `Datum::update` with the delivery of its `emit changed()` (line
156): the body runs with the answers `oracle n`, then `update` of every
subscribed datum is called in turn.  The state is the world and the number of
calls answered so far. -/
def updateD (ih : InputHandler H) (oracle : Nat → Env) :
    Nat → World H × Nat → DatumId → Option (World H × Nat)
  | 0, _, _ => none
  | fuel + 1, s, d =>
      if (s.1.datums d).recursing then some s
      else if hasChanged ih (oracle s.2) s.1 d then
        (changedReceivers (update ih (oracle s.2) s.1 d).conns d).foldlM
          (fun acc x => updateD ih oracle fuel acc x)
          (update ih (oracle s.2) s.1 d, s.2 + 1)
      else some (update ih (oracle s.2) s.1 d, s.2 + 1)

/-- The statement `emit changed()` of the datum `d` made outside `update`: the
signal is logged and `update` of every subscribed datum is called. -/
def emitChanged (ih : InputHandler H) (oracle : Nat → Env) (fuel : Nat)
    (s : World H × Nat) (d : DatumId) : Option (World H × Nat) :=
  (changedReceivers s.1.conns d).foldlM (fun acc x => updateD ih oracle fuel acc x)
    (s.1.record (.changed d), s.2)

/-- A call of `Datum::addLink` with the delivery of its two `emit changed()`
(lines 60-61); `none` is the dereference of a `NULL` `input_handler` or a
delivery that does not end within `fuel` nested calls. -/
def addLinkD (ih : InputHandler H) (oracle : Nat → Env) (fuel : Nat)
    (s : World H × Nat) (d : DatumId) (input : LinkId) : Option (World H × Nat) :=
  match (s.1.datums d).input_handler with
  | none => none
  | some h =>
    let w1 := s.1.setDatum d
      { s.1.datums d with input_handler := some (ih.addInput h input (s.1.links input)) }
    let w2 := w1.setLink input { w1.links input with target := some d }
    let w3 := w2.connect ⟨.datum d, .destroyed, .link input, .deleteLater⟩
    let w4 := w3.connect ⟨.link input, .destroyed, .datum d, .update⟩
    (emitChanged ih oracle fuel (w4, s.2) d).bind fun s5 =>
    (emitChanged ih oracle fuel s5 (s5.1.links input).parent).bind fun s6 =>
    let w7 := s6.1.connect ⟨.link input, .destroyed, .datum d, .changed⟩
    let w8 := w7.connect ⟨.link input, .destroyed, .datum (w7.links input).parent, .changed⟩
    some (w8, s6.2)

/-- What the death of the link `l` does to the input handlers before any slot
runs: the guarded pointers to the link (`QPointer<Link>`) are cleared.  The
handler class is declared outside `datum.cpp`; `forget h l` is its state `h`
with the pointers to `l` cleared. -/
def forgetLink (forget : H → LinkId → H) (w : World H) (l : LinkId) : World H :=
  { w with datums := fun y =>
      { w.datums y with
        input_handler := (w.datums y).input_handler.map (fun h => forget h l) } }

/-- Delivery of `destroyed` of a link to one receiver: the slot `update` of a
datum is called, the signal `changed` of a datum is emitted (signal to signal
connection of lines 62-64); the slots of other classes are not part of
`datum.cpp`. -/
def deliverD (ih : InputHandler H) (oracle : Nat → Env) (fuel : Nat)
    (s : World H × Nat) : Obj × Method → Option (World H × Nat)
  | (.datum d, .update) => updateD ih oracle fuel s d
  | (.datum d, .changed) => emitChanged ih oracle fuel s d
  | _ => some s

/-- Destruction of the link `l` (Qt `QObject::~QObject`): the guarded pointers
to the link are cleared, `destroyed` is delivered to every receiver connected
to it, in connection order, then every connection of the link goes. -/
def destroyLinkD (ih : InputHandler H) (forget : H → LinkId → H) (oracle : Nat → Env)
    (fuel : Nat) (s : World H × Nat) (l : LinkId) : Option (World H × Nat) :=
  let others := fun (c : Conn) => decide (c.sender ≠ .link l) && decide (c.receiver ≠ .link l)
  ((destroyedReceivers s.1.conns l).foldlM (deliverD ih oracle fuel)
      (forgetLink forget s.1 l, s.2)).map
    (fun s1 => ({ s1.1 with conns := s1.1.conns.filter others }, s1.2))

/-- What every call of `update`, direct or delivered, leaves in place: the
input handler and the recursion flag of every datum, the links, the log
written so far, the subscriptions made by `addLink` at line 54, and an
`editable` flag that agrees with `canEdit()`. -/
def Extends (ih : InputHandler H) (w w2 : World H) : Prop :=
  (∀ y, (w2.datums y).input_handler = (w.datums y).input_handler) ∧
  (∀ y, (w2.datums y).recursing = (w.datums y).recursing) ∧
  w2.links = w.links ∧
  (∃ ys, w2.log = w.log ++ ys) ∧
  (∀ b l, Attached w b l → Attached w2 b l) ∧
  (∀ y, (w.datums y).editable = canEdit ih (w.datums y) →
    (w2.datums y).editable = canEdit ih (w2.datums y))

/-- The guarded pointer of the sample handler: it is cleared when the link it
points to dies. -/
def oneLinkForget (h : Option (LinkId × DatumId)) (l : LinkId) : Option (LinkId × DatumId) :=
  match h with
  | none => none
  | some (l0, p) => if l0 = l then none else some (l0, p)

/-- Answers of the collaborators for a datum whose expression refers to the
datum `u` and evaluates to `v` whatever `connectUpstream(u)` returns. -/
def sampleEnvSelf (u : DatumId) (v : PyObj) (s : String) : Env :=
  { sampleEnv (some v) s with
    getCurrentValue := .connectUpstream u (fun _ => .done (some v)) }

/-- Answers of the collaborators with a comparison that is not transitive:
two distinct Python objects compare equal when they are at most 10 apart. -/
def sampleEnvNear (v : Option PyObj) (s : String) : Env :=
  { sampleEnv v s with
    ne := fun a b => if a ≤ b + 10 ∧ b ≤ a + 10 then 0 else 1 }

/-- The answers to the successive calls of `update`: the first call evaluates
an expression of datum 0 that refers to datum 0 itself, every later call
evaluates to the object 6. -/
def oracleSelfThenSix : Nat → Env :=
  fun n => if n = 0 then sampleEnvSelf 0 15 "15" else sampleEnv (some 6) "6"

/-- The same answers to every call of `update`. -/
def oracleConst (env : Env) : Nat → Env :=
  fun _ => env

/-- The sample world after link 0, owned by datum 1, has been added to
datum 0. -/
def worldLinked : World (Option (LinkId × DatumId)) :=
  (addLink oneLink world2 0 0).getD world2

/-- Datum 0 updated with its link in place: the handler reports input, the
value comes from the handler and `editable` turns false. -/
def worldLinkedUpdated : World (Option (LinkId × DatumId)) :=
  update oneLink (sampleEnv (some 7) "7") worldLinked 0

/-! ## Frame lemmas -/

@[simp] theorem setDatum_datums_self (w : World H) (d : DatumId) (x : Datum H) :
    (w.setDatum d x).datums d = x := by
  simp [World.setDatum]

theorem setDatum_datums_other (w : World H) (d : DatumId) (x : Datum H)
    {y : DatumId} (h : y ≠ d) : (w.setDatum d x).datums y = w.datums y := by
  simp [World.setDatum, Function.update_noteq h]

@[simp] theorem setDatum_log (w : World H) (d : DatumId) (x : Datum H) :
    (w.setDatum d x).log = w.log := rfl

@[simp] theorem setDatum_conns (w : World H) (d : DatumId) (x : Datum H) :
    (w.setDatum d x).conns = w.conns := rfl

@[simp] theorem setDatum_links (w : World H) (d : DatumId) (x : Datum H) :
    (w.setDatum d x).links = w.links := rfl

@[simp] theorem record_datums (w : World H) (e : Event) :
    (w.record e).datums = w.datums := rfl

@[simp] theorem record_log (w : World H) (e : Event) :
    (w.record e).log = w.log ++ [e] := rfl

@[simp] theorem record_conns (w : World H) (e : Event) :
    (w.record e).conns = w.conns := rfl

@[simp] theorem record_links (w : World H) (e : Event) :
    (w.record e).links = w.links := rfl

@[simp] theorem connectUnique_datums (w : World H) (c : Conn) :
    (w.connectUnique c).datums = w.datums := by
  unfold World.connectUnique; split <;> rfl

@[simp] theorem connectUnique_log (w : World H) (c : Conn) :
    (w.connectUnique c).log = w.log := by
  unfold World.connectUnique; split <;> rfl

@[simp] theorem connectUnique_links (w : World H) (c : Conn) :
    (w.connectUnique c).links = w.links := by
  unfold World.connectUnique; split <;> rfl

theorem mem_connectUnique_self (w : World H) (c : Conn) :
    c ∈ (w.connectUnique c).conns := by
  unfold World.connectUnique; split
  · assumption
  · simp

theorem mem_connectUnique_of_mem (w : World H) (c : Conn) {x : Conn}
    (h : x ∈ w.conns) : x ∈ (w.connectUnique c).conns := by
  unfold World.connectUnique; split
  · assumption
  · simp [h]

@[simp] theorem disconnect_datums (w : World H) (c : Conn) :
    (w.disconnect c).datums = w.datums := rfl

@[simp] theorem disconnect_log (w : World H) (c : Conn) :
    (w.disconnect c).log = w.log := rfl

@[simp] theorem disconnect_links (w : World H) (c : Conn) :
    (w.disconnect c).links = w.links := rfl

@[simp] theorem onDisconnectRequest_datums (w : World H) (u d : DatumId) :
    (onDisconnectRequest w u d).datums = w.datums := rfl

@[simp] theorem onDisconnectRequest_log (w : World H) (u d : DatumId) :
    (onDisconnectRequest w u d).log = w.log := rfl

@[simp] theorem onDisconnectRequest_links (w : World H) (u d : DatumId) :
    (onDisconnectRequest w u d).links = w.links := rfl

theorem foldl_onDisconnectRequest (us : List DatumId) (w : World H) (d : DatumId) :
    (us.foldl (fun acc u => onDisconnectRequest acc u d) w).datums = w.datums ∧
    (us.foldl (fun acc u => onDisconnectRequest acc u d) w).log = w.log ∧
    (us.foldl (fun acc u => onDisconnectRequest acc u d) w).links = w.links := by
  induction us generalizing w with
  | nil => simp
  | cons u us ih =>
      have h := ih (onDisconnectRequest w u d)
      simpa using h

@[simp] theorem emitDisconnectFrom_datums (w : World H) (d : DatumId) :
    (emitDisconnectFrom w d).datums = w.datums := by
  unfold emitDisconnectFrom
  rw [(foldl_onDisconnectRequest _ _ d).1]; rfl

@[simp] theorem emitDisconnectFrom_log (w : World H) (d : DatumId) :
    (emitDisconnectFrom w d).log = w.log ++ [Event.disconnectFrom d] := by
  unfold emitDisconnectFrom
  rw [(foldl_onDisconnectRequest _ _ d).2.1]; rfl

@[simp] theorem emitDisconnectFrom_links (w : World H) (d : DatumId) :
    (emitDisconnectFrom w d).links = w.links := by
  unfold emitDisconnectFrom
  rw [(foldl_onDisconnectRequest _ _ d).2.2]; rfl

theorem connectUpstream_datums_self (w : World H) (d u : DatumId) :
    (connectUpstream w d u).1.datums d =
      { w.datums d with _upstream := (w.datums d)._upstream ∪ (w.datums u)._upstream } := by
  simp [connectUpstream]

theorem connectUpstream_datums_other (w : World H) (d u : DatumId) {y : DatumId}
    (h : y ≠ d) : (connectUpstream w d u).1.datums y = w.datums y := by
  simp [connectUpstream, setDatum_datums_other _ _ _ h]

@[simp] theorem connectUpstream_log (w : World H) (d u : DatumId) :
    (connectUpstream w d u).1.log = w.log := by
  simp [connectUpstream]

@[simp] theorem connectUpstream_links (w : World H) (d u : DatumId) :
    (connectUpstream w d u).1.links = w.links := by
  simp [connectUpstream]

@[simp] theorem runEval_log (e : Eval) (w : World H) (d : DatumId) :
    (runEval e w d).1.log = w.log := by
  induction e generalizing w with
  | done v => rfl
  | connectUpstream u k ih => simp [runEval, ih]

@[simp] theorem runEval_links (e : Eval) (w : World H) (d : DatumId) :
    (runEval e w d).1.links = w.links := by
  induction e generalizing w with
  | done v => rfl
  | connectUpstream u k ih => simp [runEval, ih]

theorem runEval_datums_other (e : Eval) (w : World H) (d : DatumId) {y : DatumId}
    (h : y ≠ d) : (runEval e w d).1.datums y = w.datums y := by
  induction e generalizing w with
  | done v => rfl
  | connectUpstream u k ih => simp [runEval, ih, connectUpstream_datums_other _ _ _ h]

/-- A value computation touches no field of the datum but `_upstream`. -/
theorem runEval_datums_self (e : Eval) (w : World H) (d : DatumId) :
    (runEval e w d).1.datums d =
      { w.datums d with _upstream := ((runEval e w d).1.datums d)._upstream } := by
  induction e generalizing w with
  | done v => rfl
  | connectUpstream u k ih =>
      simp only [runEval]
      rw [ih]
      simp [connectUpstream_datums_self]

theorem newValue_log (ih : InputHandler H) (env : Env) (w : World H) (d : DatumId) :
    (newValue ih env w d).1.log = w.log ++ [Event.disconnectFrom d,
      if hasInputValue ih (w.datums d) then Event.getValue d else Event.getCurrentValue d] := by
  unfold newValue
  by_cases h : hasInputValue ih (w.datums d) = true
  · have h2 : hasInputValue ih { w.datums d with _upstream := {d} } = true := h
    simp [h, h2]
  · have h2 : ¬ hasInputValue ih { w.datums d with _upstream := {d} } = true := h
    simp [h, h2]

theorem newValue_links (ih : InputHandler H) (env : Env) (w : World H) (d : DatumId) :
    (newValue ih env w d).1.links = w.links := by
  simp only [newValue]
  split <;> simp

theorem newValue_datums_other (ih : InputHandler H) (env : Env) (w : World H)
    (d : DatumId) {y : DatumId} (h : y ≠ d) :
    (newValue ih env w d).1.datums y = w.datums y := by
  simp only [newValue]
  split <;> simp [runEval_datums_other _ _ _ h, setDatum_datums_other _ _ _ h]

/-- Lines 100-113 of `update` touch no field of the datum but `_upstream`. -/
theorem newValue_datums_self (ih : InputHandler H) (env : Env) (w : World H)
    (d : DatumId) :
    ∃ s, (newValue ih env w d).1.datums d = { w.datums d with _upstream := s } := by
  simp only [newValue]
  split
  · exact ⟨((runEval env.getValue _ d).1.datums d)._upstream, by
      rw [runEval_datums_self]; simp⟩
  · exact ⟨((runEval env.getCurrentValue _ d).1.datums d)._upstream, by
      rw [runEval_datums_self]; simp⟩

theorem postInit_datums_self (env : Env) (w : World H) (d : DatumId) :
    (postInit env w d).datums d = { w.datums d with post_init_called := true } := by
  unfold postInit
  split <;> simp

theorem postInit_datums_other (env : Env) (w : World H) (d : DatumId) {y : DatumId}
    (h : y ≠ d) : (postInit env w d).datums y = w.datums y := by
  unfold postInit
  split <;> simp [setDatum_datums_other _ _ _ h]

theorem postInit_log (env : Env) (w : World H) (d : DatumId) :
    (postInit env w d).log = w.log ++ (Event.onNameChange (w.datums d).objectName ::
      if env.ANTIMONY && env.renderAccepts then [Event.newRenderTask d] else []) := by
  unfold postInit
  split <;> simp

/-- The three field updates of `update` set `has_changed` exactly when they
change an observable field. -/
theorem storeFields_changed_iff (ih : InputHandler H) (env : Env) (x : Datum H)
    (c : Option PyObj) :
    (storeFields ih env x c).2 = true ↔
      (storeFields ih env x c).1.observable ≠ x.observable := by
  rcases x with ⟨n, value, valid, editable, repr, hd, pic, up, rec⟩
  simp only [storeFields, storeValue, storeEditable, storeRepr, Datum.observable, canEdit,
    hasInputValue, PyObject_RichCompareBool_NE]
  cases c <;> cases valid <;> cases value <;> simp <;> split_ifs <;> simp_all

theorem afterPostInit_datums_self (env : Env) (w : World H) (d : DatumId) :
    (afterPostInit env w d).datums d = { w.datums d with post_init_called := true } := by
  unfold afterPostInit
  cases h : (w.datums d).post_init_called
  · simp [postInit_datums_self]
  · simp [← h]

theorem afterPostInit_datums_other (env : Env) (w : World H) (d : DatumId)
    {y : DatumId} (h : y ≠ d) : (afterPostInit env w d).datums y = w.datums y := by
  unfold afterPostInit
  split
  · exact postInit_datums_other env w d h
  · rfl

theorem afterPostInit_count_changed (env : Env) (w : World H) (d x : DatumId) :
    (afterPostInit env w d).log.count (Event.changed x) = w.log.count (Event.changed x) := by
  unfold afterPostInit
  split
  · rw [postInit_log]
    split <;> simp [List.count_cons]
  · rfl

/-- The datum being updated after a call of `update` that is not suppressed:
the three field updates applied to the datum as left by the value
computation. -/
theorem update_datums_self (ih : InputHandler H) (env : Env) (w : World H)
    (d : DatumId) (h : (w.datums d).recursing = false) :
    (update ih env w d).datums d =
      (storeFields ih env ((newValue ih env (afterPostInit env w d) d).1.datums d)
        (newValue ih env (afterPostInit env w d) d).2).1 := by
  simp only [update, h]
  simp only [Bool.false_eq_true, if_false]
  split <;> simp

/-- The log after a call of `update` that is not suppressed. -/
theorem update_log (ih : InputHandler H) (env : Env) (w : World H)
    (d : DatumId) (h : (w.datums d).recursing = false) :
    (update ih env w d).log =
      (newValue ih env (afterPostInit env w d) d).1.log ++ Event.getString d ::
        (if (storeFields ih env ((newValue ih env (afterPostInit env w d) d).1.datums d)
            (newValue ih env (afterPostInit env w d) d).2).2
         then [Event.changed d] else []) := by
  simp only [update, h]
  simp only [Bool.false_eq_true, if_false]
  split <;> simp

/-- The value computation starts from a datum that shows the observer what
the datum showed at the entry of `update`. -/
theorem newValue_afterPostInit_observable (ih : InputHandler H) (env : Env)
    (w : World H) (d : DatumId) :
    ((newValue ih env (afterPostInit env w d) d).1.datums d).observable =
      (w.datums d).observable := by
  obtain ⟨s, hs⟩ := newValue_datums_self ih env (afterPostInit env w d) d
  rw [hs, afterPostInit_datums_self]
  rfl

/-- The emit statement of line 156 is executed once when one of `value`,
`valid`, `editable`, `repr` differs between the entry of `update` and line 154,
and not at all otherwise. -/
theorem update_body_changed_count (ih : InputHandler H)
    (env : Env) (w : World H) (d : DatumId) (h : (w.datums d).recursing = false) :
    (update ih env w d).log.count (Event.changed d) =
      w.log.count (Event.changed d) +
        (if ((update ih env w d).datums d).observable ≠ (w.datums d).observable
          then 1 else 0) := by
  rw [update_log ih env w d h, update_datums_self ih env w d h, newValue_log,
    ← newValue_afterPostInit_observable ih env w d]
  have hc := storeFields_changed_iff ih env
    ((newValue ih env (afterPostInit env w d) d).1.datums d)
    (newValue ih env (afterPostInit env w d) d).2
  simp only [List.count_append, afterPostInit_count_changed]
  by_cases hb : (storeFields ih env ((newValue ih env (afterPostInit env w d) d).1.datums d)
      (newValue ih env (afterPostInit env w d) d).2).2 = true
  · rw [if_pos hb, if_pos (hc.mp hb)]
    split <;> simp [List.count_cons]
  · rw [if_neg hb, if_neg (fun hne => hb (hc.mpr hne))]
    split <;> simp [List.count_cons]

/-! ## What each method does to the datums -/

theorem update_datums_other (ih : InputHandler H) (env : Env) (w : World H)
    (d : DatumId) {y : DatumId} (h : y ≠ d) :
    (update ih env w d).datums y = w.datums y := by
  simp only [update]
  split
  · rfl
  · split <;>
      simp [setDatum_datums_other _ _ _ h, newValue_datums_other _ _ _ _ h,
        afterPostInit_datums_other _ _ _ h]

theorem storeFields_valid_value (ih : InputHandler H) (env : Env) (x : Datum H)
    (c : Option PyObj) (hx : x.valid = true → x.value ≠ none) :
    (storeFields ih env x c).1.valid = true → (storeFields ih env x c).1.value ≠ none := by
  rcases x with ⟨n, value, valid, editable, repr, hd, pic, up, rec⟩
  simp only [storeFields, storeValue, storeEditable, storeRepr]
  cases c <;> cases valid <;> simp at hx ⊢ <;> split_ifs <;> simp_all

theorem addLink_datums (ih : InputHandler H) (w w2 : World H) (d : DatumId)
    (l : LinkId) (h : addLink ih w d l = some w2) (y : DatumId) :
    ∃ hd, w2.datums y = { w.datums y with input_handler := hd } := by
  unfold addLink at h
  split at h
  · cases h
  · cases h
    by_cases hy : y = d
    · subst hy
      rename_i h0 _
      exact ⟨some (ih.addInput h0 l (w.links l)), by simp [World.connect, World.setLink]⟩
    · exact ⟨(w.datums y).input_handler, by
        simp [World.connect, World.setLink, setDatum_datums_other _ _ _ hy]⟩

theorem deleteLink_datums (ih : InputHandler H) (w w2 : World H) (d u : DatumId)
    (h : deleteLink ih w d u = some w2) (y : DatumId) :
    ∃ hd, w2.datums y = { w.datums y with input_handler := hd } := by
  unfold deleteLink at h
  split at h
  · cases h
  · cases h
    by_cases hy : y = d
    · subst hy
      rename_i h0 _
      exact ⟨some (ih.deleteInput h0 u), by simp⟩
    · exact ⟨(w.datums y).input_handler, by simp [setDatum_datums_other _ _ _ hy]⟩

theorem connectUpstream_datums (w : World H) (d u y : DatumId) :
    ∃ s, (connectUpstream w d u).1.datums y = { w.datums y with _upstream := s } := by
  by_cases hy : y = d
  · subst hy
    exact ⟨_, connectUpstream_datums_self w y u⟩
  · exact ⟨(w.datums y)._upstream, by rw [connectUpstream_datums_other _ _ _ hy]⟩

theorem subclassSet_datums (w : World H) (d : DatumId) (h : Option H) (r : Bool)
    (y : DatumId) :
    ∃ hd rc, (subclassSet w d h r).datums y =
      { w.datums y with input_handler := hd, recursing := rc } := by
  by_cases hy : y = d
  · subst hy
    exact ⟨h, r, by simp [subclassSet]⟩
  · exact ⟨(w.datums y).input_handler, (w.datums y).recursing, by
      simp [subclassSet, setDatum_datums_other _ _ _ hy]⟩

theorem update_valid_value (ih : InputHandler H) (env : Env) (w : World H)
    (d y : DatumId) (hy : (w.datums y).valid = true → (w.datums y).value ≠ none) :
    ((update ih env w d).datums y).valid = true →
      ((update ih env w d).datums y).value ≠ none := by
  by_cases hyd : y = d
  · subst hyd
    cases hr : (w.datums y).recursing
    · rw [update_datums_self ih env w y hr]
      apply storeFields_valid_value
      obtain ⟨s, hs⟩ := newValue_datums_self ih env (afterPostInit env w y) y
      rw [hs, afterPostInit_datums_self]
      exact hy
    · simpa [update, hr] using hy
  · rw [update_datums_other ih env w d hyd]
    exact hy

/-- C2 (amended): in every world reachable from construction, a datum that is
`valid` holds a cached value: `value` empty implies `valid` false.  The
converse is not promised: a datum that turns invalid keeps its cached value. -/
theorem reachable_valid_implies_value_nonempty (ih : InputHandler H) (w : World H)
    (hw : Reachable ih w) (d : DatumId) :
    (w.datums d).valid = true → (w.datums d).value ≠ none := by
  induction hw with
  | init name e0 owner => simp [World.init, Datum.new]
  | subclassSet x h r _ ih0 =>
      obtain ⟨hd, rc, e⟩ := subclassSet_datums _ x h r d
      rw [e]; exact ih0
  | update env x _ ih0 => exact update_valid_value ih env _ x d ih0
  | addLink x l _ hl ih0 =>
      obtain ⟨hd, e⟩ := addLink_datums ih _ _ x l hl d
      rw [e]; exact ih0
  | deleteLink x u _ hl ih0 =>
      obtain ⟨hd, e⟩ := deleteLink_datums ih _ _ x u hl d
      rw [e]; exact ih0
  | connectUpstream x u _ ih0 =>
      obtain ⟨s, e⟩ := connectUpstream_datums _ x u d
      rw [e]; exact ih0

theorem reachable_world2 : Reachable oneLink world2 :=
  Reachable.update _ _ (Reachable.subclassSet _ _ _ (Reachable.init _ _ _))

/-- Witness of C2 on the sample world after one update of datum 0. -/
theorem reachable_valid_implies_value_nonempty_witness :
    Reachable oneLink world2 ∧
    ((world2.datums 0).valid = true → (world2.datums 0).value ≠ none) :=
  ⟨reachable_world2,
    reachable_valid_implies_value_nonempty oneLink world2 reachable_world2 0⟩

/-- C2 as stated fails: construct datum 0, update it with the candidate 5, update
it again with an empty candidate.  The world is reachable through `update`
calls alone after construction, `valid` is false and the cached value is still
the object 5. -/
theorem valid_false_with_value_cached :
    Reachable oneLink worldInvalidated ∧
    (worldInvalidated.datums 0).valid = false ∧
    (worldInvalidated.datums 0).value = some 5 :=
  ⟨Reachable.update _ _ (Reachable.update _ _ (Reachable.init _ _ _)), by decide, by decide⟩

/-- C3 (amended): right after every call of `update` that is not suppressed the
cached `editable` flag equals `canEdit()`, that is, not (input handler present
and reporting input). -/
theorem update_editable_eq_canEdit (ih : InputHandler H) (env : Env) (w : World H)
    (d : DatumId) (h : (w.datums d).recursing = false) :
    ((update ih env w d).datums d).editable = canEdit ih ((update ih env w d).datums d) := by
  rw [update_datums_self ih env w d h]
  generalize (newValue ih env (afterPostInit env w d) d).1.datums d = x
  generalize (newValue ih env (afterPostInit env w d) d).2 = c
  rcases x with ⟨n, value, valid, editable, repr, hd, pic, up, rec⟩
  simp only [storeFields, storeValue, storeEditable, storeRepr, canEdit, hasInputValue]
  cases hd with
  | none => cases c <;> cases valid <;> cases editable <;> simp <;> split_ifs <;> simp_all
  | some h0 =>
      generalize ih.hasInput h0 = b
      cases c <;> cases valid <;> cases editable <;> cases b <;> simp <;> split_ifs <;>
        simp_all

/-- Witness of C3 (amended): the first update of datum 0, whose handler holds
no link, overwrites the uninitialised `editable` flag. -/
theorem update_editable_eq_canEdit_witness :
    (world1.datums 0).recursing = false ∧
    ((update oneLink (sampleEnv (some 5) "5") world1 0).datums 0).editable =
      canEdit oneLink ((update oneLink (sampleEnv (some 5) "5") world1 0).datums 0) :=
  ⟨rfl, update_editable_eq_canEdit oneLink (sampleEnv (some 5) "5") world1 0 rfl⟩

/-- C3 as stated fails: in the reachable sample world, where datum 0 is
editable, `addLink` hands link 0 to the input handler, which then reports
input, and leaves the cached `editable` flag true while `canEdit()` is false. -/
theorem addLink_leaves_editable_stale :
    Reachable oneLink world2 ∧
    (addLink oneLink world2 0 0).map
      (fun w => ((w.datums 0).editable, canEdit oneLink (w.datums 0))) =
      some (true, false) :=
  ⟨reachable_world2, by decide⟩

/-- C4: when the datum `b` has an input handler and is contained in the
upstream set of the datum `a`, `b.acceptsLink(L)` returns false for every link
`L` whose source is `a`, whatever the handler answers for `L`. -/
theorem acceptsLink_rejects_target_upstream_of_source (ih : InputHandler H)
    (w : World H) (a b : DatumId) (L : LinkId) (h : H)
    (_hh : (w.datums b).input_handler = some h) (hL : (w.links L).parent = a)
    (hb : b ∈ (w.datums a)._upstream) :
    acceptsLink ih w b L = some false := by
  simp [acceptsLink, hL, hb]

/-- Witness of C4: in the sample world datum 0 is upstream of datum 1, and
link 0, owned by datum 1, is refused by datum 0 although the handler of
datum 0 holds no link and would accept. -/
theorem acceptsLink_rejects_target_upstream_of_source_witness :
    ((world3.datums 0).input_handler = some none ∧ (world3.links 0).parent = 1 ∧
      0 ∈ (world3.datums 1)._upstream) ∧
    acceptsLink oneLink world3 0 0 = some false :=
  ⟨⟨by decide, by decide, by decide⟩,
    acceptsLink_rejects_target_upstream_of_source oneLink world3 1 0 0 none
      (by decide) (by decide) (by decide)⟩

/-- C5 (amended): for a datum `d` with an input handler and a link `L` whose
owner is in the upstream set of `d`, `d.acceptsLink(L)` returns false exactly
when `d` is in the upstream set of the owner of `L` or the handler refuses
`L`; the owner being upstream of `d` does not reject by itself. -/
theorem acceptsLink_owner_in_own_upstream (ih : InputHandler H) (w : World H)
    (d : DatumId) (L : LinkId) (h : H)
    (hh : (w.datums d).input_handler = some h)
    (_hown : (w.links L).parent ∈ (w.datums d)._upstream) :
    acceptsLink ih w d L =
      some (decide (d ∉ (w.datums (w.links L).parent)._upstream) &&
        ih.accepts h L (w.links L)) := by
  by_cases hc : d ∈ (w.datums (w.links L).parent)._upstream
  · simp [acceptsLink, hc]
  · simp [acceptsLink, hc, hh]

/-- Witness of C5 (amended) on the sample world in which datum 1, the owner of
link 0, is upstream of datum 0. -/
theorem acceptsLink_owner_in_own_upstream_witness :
    ((worldOwnerUpstream.datums 0).input_handler = some none ∧
      (worldOwnerUpstream.links 0).parent ∈ (worldOwnerUpstream.datums 0)._upstream) ∧
    acceptsLink oneLink worldOwnerUpstream 0 0 =
      some (decide (0 ∉ (worldOwnerUpstream.datums (worldOwnerUpstream.links 0).parent)._upstream)
        && oneLink.accepts none 0 (worldOwnerUpstream.links 0)) :=
  ⟨⟨by decide, by decide⟩,
    acceptsLink_owner_in_own_upstream oneLink worldOwnerUpstream 0 0 none
      (by decide) (by decide)⟩

/-- C5 as stated fails: datum 1, the owner of link 0, is in the upstream set of
datum 0, datum 0 is not in the upstream set of datum 1, the handler of datum 0
accepts, and `acceptsLink` returns true. -/
theorem acceptsLink_accepts_owner_in_own_upstream :
    (worldOwnerUpstream.links 0).parent ∈ (worldOwnerUpstream.datums 0)._upstream ∧
    (worldOwnerUpstream.datums 0).input_handler = some none ∧
    acceptsLink oneLink worldOwnerUpstream 0 0 = some true := by
  decide

/-- C6 at its failing input: datum 0 as constructed has no input handler, link
0 is owned by datum 1 whose upstream set does not contain datum 0, so the cycle
check passes and `acceptsLink` dereferences the `NULL` handler instead of
returning false. -/
theorem acceptsLink_null_handler_dereferenced :
    (world0.datums 0).input_handler = none ∧
    0 ∉ (world0.datums (world0.links 0).parent)._upstream ∧
    acceptsLink oneLink world0 0 0 = none := by
  decide

/-- C7: `d.connectUpstream(u)` returns true exactly when the upstream set of `u`
does not contain `d`, and false exactly when it does. -/
theorem connectUpstream_true_iff_not_in_upstream (w : World H) (d u : DatumId) :
    ((connectUpstream w d u).2 = true ↔ d ∉ (w.datums u)._upstream) ∧
    ((connectUpstream w d u).2 = false ↔ d ∈ (w.datums u)._upstream) := by
  by_cases hu : u = d
  · subst hu
    by_cases hm : u ∈ (w.datums u)._upstream <;> simp [connectUpstream, hm]
  · by_cases hm : d ∈ (w.datums u)._upstream <;>
      simp [connectUpstream, setDatum_datums_other _ _ _ hu, hm]

/-- C8 (amended): when the upstream set of `u` contains `d`,
`d.connectUpstream(u)` returns false, and it has connected all the same: the
upstream set of `d` is now its union with the upstream set of `u`, and the
three subscriptions between `d` and `u` are in the connection table. -/
theorem connectUpstream_cycle_returns_false_and_connects (w : World H)
    (d u : DatumId) (hc : d ∈ (w.datums u)._upstream) :
    (connectUpstream w d u).2 = false ∧
    ((connectUpstream w d u).1.datums d)._upstream =
      (w.datums d)._upstream ∪ (w.datums u)._upstream ∧
    (⟨.datum u, .changed, .datum d, .update⟩ : Conn) ∈ (connectUpstream w d u).1.conns ∧
    (⟨.datum u, .destroyed, .datum d, .update⟩ : Conn) ∈ (connectUpstream w d u).1.conns ∧
    (⟨.datum d, .disconnectFrom, .datum u, .onDisconnectRequest⟩ : Conn) ∈
      (connectUpstream w d u).1.conns := by
  refine ⟨(connectUpstream_true_iff_not_in_upstream w d u).2.mpr hc, ?_, ?_, ?_, ?_⟩
  · rw [connectUpstream_datums_self]
  · exact mem_connectUnique_of_mem _ _ (mem_connectUnique_of_mem _ _ (mem_connectUnique_self _ _))
  · exact mem_connectUnique_of_mem _ _ (mem_connectUnique_self _ _)
  · exact mem_connectUnique_self _ _

/-- Witness of C8 (amended): datum 0 is upstream of datum 1 in the sample
world, and datum 0 connects to datum 1. -/
theorem connectUpstream_cycle_returns_false_and_connects_witness :
    0 ∈ (world3.datums 1)._upstream ∧
    ((connectUpstream world3 0 1).2 = false ∧
    ((connectUpstream world3 0 1).1.datums 0)._upstream =
      (world3.datums 0)._upstream ∪ (world3.datums 1)._upstream ∧
    (⟨.datum 1, .changed, .datum 0, .update⟩ : Conn) ∈ (connectUpstream world3 0 1).1.conns ∧
    (⟨.datum 1, .destroyed, .datum 0, .update⟩ : Conn) ∈ (connectUpstream world3 0 1).1.conns ∧
    (⟨.datum 0, .disconnectFrom, .datum 1, .onDisconnectRequest⟩ : Conn) ∈
      (connectUpstream world3 0 1).1.conns) :=
  ⟨by decide, connectUpstream_cycle_returns_false_and_connects world3 0 1 (by decide)⟩

/-- C8 as stated fails: in the sample world the upstream set of datum 1
contains datum 0; `connectUpstream` called on datum 0 with datum 1 returns
false, yet the upstream set of datum 0 grows from `{0}` to `{0, 1}` and the
connection table grows from three to six subscriptions. -/
theorem connectUpstream_cycle_still_connects :
    0 ∈ (world3.datums 1)._upstream ∧
    (connectUpstream world3 0 1).2 = false ∧
    (world3.datums 0)._upstream = {0} ∧
    ((connectUpstream world3 0 1).1.datums 0)._upstream = {0, 1} ∧
    world3.conns.length = 3 ∧
    (connectUpstream world3 0 1).1.conns.length = 6 ∧
    (⟨.datum 1, .changed, .datum 0, .update⟩ : Conn) ∉ world3.conns ∧
    (⟨.datum 1, .changed, .datum 0, .update⟩ : Conn) ∈ (connectUpstream world3 0 1).1.conns := by
  decide

/-- C9: when the recursion flag of the datum is set, `update` returns at once:
the whole world is unchanged, that is every field of every datum (`value`,
`valid`, `editable`, `repr`, `_upstream`, `post_init_called`), the connection
table, and the log of signals emitted and collaborator calls made. -/
theorem update_recursing_noop (ih : InputHandler H) (env : Env) (w : World H)
    (d : DatumId) (h : (w.datums d).recursing = true) :
    update ih env w d = w := by
  simp [update, h]

/-- Witness of C9 on the sample world with the recursion flag of datum 0
raised. -/
theorem update_recursing_noop_witness :
    (worldRecursing.datums 0).recursing = true ∧
    update oneLink (sampleEnv (some 9) "9") worldRecursing 0 = worldRecursing :=
  ⟨by decide, update_recursing_noop oneLink (sampleEnv (some 9) "9") worldRecursing 0
    (by decide)⟩

/-! ## The field updates of `update`, field by field -/

theorem storeValue_snd (ne : PyObj → PyObj → Int) (x : Datum H) (c : Option PyObj) :
    (storeValue ne x c).2 =
      match c with
      | none => x.valid
      | some v => !x.valid || PyObject_RichCompareBool_NE ne v x.value != 0 := by
  cases c with
  | none => simp only [storeValue]; split <;> simp_all
  | some v => simp only [storeValue]; split <;> simp_all

theorem storeValue_valid (ne : PyObj → PyObj → Int) (x : Datum H) (c : Option PyObj) :
    (storeValue ne x c).1.valid = c.isSome := by
  cases c with
  | none => simp only [storeValue]; split <;> simp_all
  | some v => simp only [storeValue]; split <;> simp_all

theorem storeValue_value (ne : PyObj → PyObj → Int) (x : Datum H) (c : Option PyObj) :
    (storeValue ne x c).1.value =
      match c with
      | none => x.value
      | some v =>
          if !x.valid || PyObject_RichCompareBool_NE ne v x.value != 0 then some v
          else x.value := by
  cases c with
  | none => simp only [storeValue]; split <;> rfl
  | some v => simp only [storeValue]; split <;> rfl

theorem storeValue_rest (ne : PyObj → PyObj → Int) (x : Datum H) (c : Option PyObj) :
    (storeValue ne x c).1 =
      { x with value := (storeValue ne x c).1.value, valid := (storeValue ne x c).1.valid } := by
  rcases x with ⟨n, value, valid, editable, repr, hd, pic, up, rec⟩
  cases c with
  | none => simp only [storeValue]; split <;> simp_all
  | some v => simp only [storeValue]; split <;> simp_all

theorem storeEditable_fst (ih : InputHandler H) (y : Datum H) (b : Bool) :
    (storeEditable ih y b).1 = { y with editable := canEdit ih y } := by
  rcases y with ⟨n, value, valid, editable, repr, hd, pic, up, rec⟩
  simp only [storeEditable]
  split
  · rfl
  · simp_all

theorem storeEditable_snd (ih : InputHandler H) (y : Datum H) (b : Bool) :
    (storeEditable ih y b).2 = (b || (canEdit ih y != y.editable)) := by
  simp only [storeEditable]
  split <;> simp_all

theorem storeRepr_fst (str : String) (y : Datum H) (b : Bool) :
    (storeRepr str y b).1 = { y with repr := str } := by
  rcases y with ⟨n, value, valid, editable, repr, hd, pic, up, rec⟩
  simp only [storeRepr]
  split
  · rfl
  · simp_all

theorem storeRepr_snd (str : String) (y : Datum H) (b : Bool) :
    (storeRepr str y b).2 = (b || (str != y.repr)) := by
  simp only [storeRepr]
  split <;> simp_all

theorem storeFields_fst (ih : InputHandler H) (env : Env) (x : Datum H) (c : Option PyObj) :
    (storeFields ih env x c).1 =
      { x with value := (storeValue env.ne x c).1.value,
               valid := (storeValue env.ne x c).1.valid,
               editable := canEdit ih x,
               repr := env.getString } := by
  simp only [storeFields, storeRepr_fst, storeEditable_fst]
  rw [storeValue_rest]
  rfl

theorem storeFields_snd (ih : InputHandler H) (env : Env) (x : Datum H) (c : Option PyObj) :
    (storeFields ih env x c).2 =
      ((storeValue env.ne x c).2 || (canEdit ih x != x.editable) ||
        (env.getString != x.repr)) := by
  simp only [storeFields, storeRepr_snd, storeEditable_snd, storeEditable_fst]
  rw [storeValue_rest]
  rfl

theorem hasInputValue_congr (ih : InputHandler H) {x y : Datum H}
    (h : x.input_handler = y.input_handler) : hasInputValue ih x = hasInputValue ih y := by
  simp only [hasInputValue, h]

theorem update_recursing (ih : InputHandler H) (env : Env) (w : World H) (d : DatumId) :
    ((update ih env w d).datums d).recursing = (w.datums d).recursing := by
  cases h : (w.datums d).recursing
  · rw [update_datums_self ih env w d h, storeFields_fst]
    obtain ⟨s, hs⟩ := newValue_datums_self ih env (afterPostInit env w d) d
    rw [hs, afterPostInit_datums_self]
    exact h
  · simp [update, h]

/-- The datum after a call of `update` that is not suppressed, field by
field. -/
theorem update_datums_self_fields (ih : InputHandler H) (env : Env) (w : World H)
    (d : DatumId) (h : (w.datums d).recursing = false) :
    ∃ s, (update ih env w d).datums d =
      { w.datums d with
        value := (storeValue env.ne (w.datums d) (candidate ih env w d)).1.value,
        valid := (storeValue env.ne (w.datums d) (candidate ih env w d)).1.valid,
        editable := canEdit ih (w.datums d),
        repr := env.getString,
        post_init_called := true,
        _upstream := s } := by
  obtain ⟨s, hs⟩ := newValue_datums_self ih env (afterPostInit env w d) d
  refine ⟨s, ?_⟩
  rw [update_datums_self ih env w d h, storeFields_fst, hs, afterPostInit_datums_self]
  simp only [storeValue_value, storeValue_valid, canEdit, hasInputValue, candidate]

/-- The flag `has_changed` in terms of the datum at the entry of `update`. -/
theorem hasChanged_eq (ih : InputHandler H) (env : Env) (w : World H) (d : DatumId) :
    hasChanged ih env w d =
      ((storeValue env.ne (w.datums d) (candidate ih env w d)).2 ||
        (canEdit ih (w.datums d) != (w.datums d).editable) ||
        (env.getString != (w.datums d).repr)) := by
  obtain ⟨s, hs⟩ := newValue_datums_self ih env (afterPostInit env w d) d
  rw [hasChanged, storeFields_snd, hs, afterPostInit_datums_self]
  simp only [storeValue_snd, canEdit, hasInputValue]

/-- A call of `update` that is not suppressed adds one `changed` of the datum
to the log when `has_changed` is set and none otherwise. -/
theorem update_count_changed (ih : InputHandler H) (env : Env) (w : World H)
    (d : DatumId) (h : (w.datums d).recursing = false) :
    (update ih env w d).log.count (Event.changed d) =
      w.log.count (Event.changed d) + (if hasChanged ih env w d then 1 else 0) := by
  rw [update_log ih env w d h, newValue_log]
  simp only [List.count_append, afterPostInit_count_changed, hasChanged, candidate]
  split <;> split <;> simp [List.count_cons]

/-! ## Two updates in a row -/

/-- The second of two value comparisons finds nothing to store when both
candidates are empty, or the second is semantically equal to the first and
semantic equality is transitive. -/
theorem storeValue_twice (ne : PyObj → PyObj → Int) (x z : Datum H)
    (c1 c2 : Option PyObj)
    (hzv : z.value = (storeValue ne x c1).1.value)
    (hzd : z.valid = (storeValue ne x c1).1.valid)
    (htr : ∀ a b c, PyObject_RichCompareBool_NE ne c (some b) = 0 →
      PyObject_RichCompareBool_NE ne b (some a) = 0 →
      PyObject_RichCompareBool_NE ne c (some a) = 0)
    (hc : (c1 = none ∧ c2 = none) ∨
      ∃ a b, c1 = some a ∧ c2 = some b ∧ PyObject_RichCompareBool_NE ne b (some a) = 0) :
    (storeValue ne z c2).2 = false := by
  rw [storeValue_valid] at hzd
  rw [storeValue_value] at hzv
  rw [storeValue_snd]
  rcases hc with ⟨rfl, rfl⟩ | ⟨a, b, rfl, rfl, hab⟩
  · simpa using hzd
  · simp only [Option.isSome_some] at hzd
    simp only [hzd, Bool.not_true, Bool.false_or, bne_eq_false_iff_eq]
    rw [hzv]
    by_cases hk : (!x.valid || PyObject_RichCompareBool_NE ne a x.value != 0) = true
    · show PyObject_RichCompareBool_NE ne b (if _ then some a else x.value) = 0
      rw [if_pos hk]; exact hab
    · show PyObject_RichCompareBool_NE ne b (if _ then some a else x.value) = 0
      rw [if_neg hk]
      simp only [Bool.or_eq_true, Bool.not_eq_true', bne_iff_ne, ne_eq, not_or,
        Bool.not_eq_false, Decidable.not_not] at hk
      cases hv : x.value with
      | none => rw [hv] at hk; simp [PyObject_RichCompareBool_NE] at hk
      | some o => rw [hv] at hk; exact htr o a b hab hk.2

/-- The comparison of the sample answers (equal modulo 10) is transitive. -/
theorem sampleEnv_semEq_trans (v : Option PyObj) (s : String) (a b c : PyObj)
    (h1 : semEq (sampleEnv v s) c b) (h2 : semEq (sampleEnv v s) b a) :
    semEq (sampleEnv v s) c a := by
  simp only [semEq, PyObject_RichCompareBool_NE, sampleEnv] at h1 h2 ⊢
  split_ifs at h1 h2 ⊢ <;> first | rfl | omega | simp_all

/-- The body of `update` on a valid datum that caches the object `v`, with a
non-empty candidate `c` semantically equal to `v`: at line 154 the cached value
is still `v`, the datum is still valid, and the emit statement of line 156 is
executed exactly when `editable` or `repr` changed. -/
theorem update_body_equal_candidate (ih : InputHandler H) (env : Env)
    (w : World H) (d : DatumId) (v c : PyObj)
    (hr : (w.datums d).recursing = false)
    (hvalid : (w.datums d).valid = true)
    (hvalue : (w.datums d).value = some v)
    (hc : candidate ih env w d = some c)
    (heq : semEq env c v) :
    ((update ih env w d).datums d).value = some v ∧
    ((update ih env w d).datums d).valid = true ∧
    (update ih env w d).log.count (Event.changed d) =
      w.log.count (Event.changed d) +
        (if ((update ih env w d).datums d).editable ≠ (w.datums d).editable ∨
            ((update ih env w d).datums d).repr ≠ (w.datums d).repr then 1 else 0) := by
  obtain ⟨s, hs⟩ := update_datums_self_fields ih env w d hr
  have hk : PyObject_RichCompareBool_NE env.ne c (w.datums d).value = 0 := by
    rw [hvalue]; exact heq
  have h2 : (storeValue env.ne (w.datums d) (some c)).2 = false := by
    rw [storeValue_snd]; simp [hvalid, hk]
  refine ⟨?_, ?_, ?_⟩
  · rw [hs, hc]
    show (storeValue env.ne (w.datums d) (some c)).1.value = some v
    rw [storeValue_value]
    simp [hvalid, hvalue, show PyObject_RichCompareBool_NE env.ne c (some v) = 0 from heq]
  · rw [hs, hc]
    show (storeValue env.ne (w.datums d) (some c)).1.valid = true
    rw [storeValue_valid]; rfl
  · rw [update_count_changed ih env w d hr, hasChanged_eq, hc, h2, hs]
    show _ + (if (false || (canEdit ih (w.datums d) != (w.datums d).editable) ||
        (env.getString != (w.datums d).repr)) = true then 1 else 0) =
      _ + (if canEdit ih (w.datums d) ≠ (w.datums d).editable ∨
        env.getString ≠ (w.datums d).repr then 1 else 0)
    simp

/-- C18: after `d.connectUpstream(u)` the upstream set of `d` is the union of
its previous set and the set of `u`: nothing is removed, all that is upstream
of `u` is now upstream of `d`, and the set of `u` is unchanged when `u` is not
`d`. -/
theorem connectUpstream_merges_upstream (w : World H) (d u : DatumId) :
    ((connectUpstream w d u).1.datums d)._upstream =
      (w.datums d)._upstream ∪ (w.datums u)._upstream ∧
    (w.datums d)._upstream ⊆ ((connectUpstream w d u).1.datums d)._upstream ∧
    (w.datums u)._upstream ⊆ ((connectUpstream w d u).1.datums d)._upstream ∧
    (u ≠ d → ((connectUpstream w d u).1.datums u)._upstream = (w.datums u)._upstream) := by
  have h : ((connectUpstream w d u).1.datums d)._upstream =
      (w.datums d)._upstream ∪ (w.datums u)._upstream := by
    rw [connectUpstream_datums_self]
  refine ⟨h, ?_, ?_, ?_⟩
  · rw [h]; exact Finset.subset_union_left
  · rw [h]; exact Finset.subset_union_right
  · intro hne
    rw [connectUpstream_datums_other w d u hne]

/-- C19: for a datum `d` with the input handler `h` and a link `L` with source
`a`, `d.acceptsLink(L)` returns, and returns true exactly when `d` is not in
the upstream set of `a` and the handler accepts `L`.  The embedded method maps
the world to the answer alone: it writes no field of `d`, `a` or `L`. -/
theorem acceptsLink_true_iff (ih : InputHandler H) (w : World H) (d a : DatumId)
    (L : LinkId) (h : H)
    (hh : (w.datums d).input_handler = some h) (hL : (w.links L).parent = a) :
    (∃ b, acceptsLink ih w d L = some b) ∧
    (acceptsLink ih w d L = some true ↔
      d ∉ (w.datums a)._upstream ∧ ih.accepts h L (w.links L) = true) := by
  by_cases hc : d ∈ (w.datums a)._upstream
  · simp [acceptsLink, hL, hc]
  · simp [acceptsLink, hL, hc, hh]

/-- Witness of C19 on the sample world in which datum 1, the owner of link 0,
is upstream of datum 0 and datum 0 is not upstream of datum 1. -/
theorem acceptsLink_true_iff_witness :
    ((worldOwnerUpstream.datums 0).input_handler = some none ∧
      (worldOwnerUpstream.links 0).parent = 1) ∧
    ((∃ b, acceptsLink oneLink worldOwnerUpstream 0 0 = some b) ∧
    (acceptsLink oneLink worldOwnerUpstream 0 0 = some true ↔
      0 ∉ (worldOwnerUpstream.datums 1)._upstream ∧
        oneLink.accepts none 0 (worldOwnerUpstream.links 0) = true)) :=
  ⟨⟨by decide, by decide⟩,
    acceptsLink_true_iff oneLink worldOwnerUpstream 0 1 0 none (by decide) (by decide)⟩

/-- The body of `addLink` on a datum `b` with the input handler `h` and a link
`l` with source `a`: it hands `l` to the handler, sets the target of `l` to `b`,
executes exactly two emit statements, `changed` of `b` and then `changed` of
`a`, and writes none of `value`, `valid`, `editable`, `repr` of any datum. -/
theorem addLink_body (ih : InputHandler H) (w : World H)
    (b a : DatumId) (l : LinkId) (h : H)
    (hh : (w.datums b).input_handler = some h) (hl : (w.links l).parent = a) :
    ∃ w2, addLink ih w b l = some w2 ∧
      (w2.datums b).input_handler = some (ih.addInput h l (w.links l)) ∧
      w2.links l = { parent := a, target := some b } ∧
      w2.log = w.log ++ [Event.changed b, Event.changed a] ∧
      ∀ y, (w2.datums y).observable = (w.datums y).observable := by
  have hadd : ∃ w2, addLink ih w b l = some w2 := by simp [addLink, hh]
  obtain ⟨w2, e⟩ := hadd
  refine ⟨w2, e, ?_⟩
  simp only [addLink, hh, Option.some.injEq] at e
  subst e
  refine ⟨?_, ?_, ?_, ?_⟩
  · simp [World.connect, World.setLink]
  · simp [World.connect, World.setLink, ← hl]
  · simp [World.connect, World.setLink, ← hl]
  · intro y
    by_cases hy : y = b
    · subst hy
      simp [World.connect, World.setLink, Datum.observable]
    · simp [World.connect, World.setLink, setDatum_datums_other _ _ _ hy]

/-- Witness of C18: datum 0 of the sample world connects to datum 1, whose
upstream set is `{1, 0}`. -/
theorem connectUpstream_merges_upstream_witness :
    ((connectUpstream world3 0 1).1.datums 0)._upstream =
      (world3.datums 0)._upstream ∪ (world3.datums 1)._upstream ∧
    (world3.datums 0)._upstream ⊆ ((connectUpstream world3 0 1).1.datums 0)._upstream ∧
    (world3.datums 1)._upstream ⊆ ((connectUpstream world3 0 1).1.datums 0)._upstream ∧
    ((1 : DatumId) ≠ 0 →
      ((connectUpstream world3 0 1).1.datums 1)._upstream = (world3.datums 1)._upstream) :=
  connectUpstream_merges_upstream world3 0 1

/-! ## The upstream set -/

theorem newValue_eq_runEval (ih : InputHandler H) (env : Env) (w : World H) (d : DatumId) :
    newValue ih env w d =
      runEval (valueComputation ih env w d).1 (valueComputation ih env w d).2 d := by
  simp only [newValue, valueComputation]
  split <;> rfl

theorem valueComputation_upstream_self (ih : InputHandler H) (env : Env) (w : World H)
    (d : DatumId) : ((valueComputation ih env w d).2.datums d)._upstream = {d} := by
  simp only [valueComputation]
  split <;> simp

theorem valueComputation_datums_other (ih : InputHandler H) (env : Env) (w : World H)
    (d : DatumId) {y : DatumId} (h : y ≠ d) :
    (valueComputation ih env w d).2.datums y = w.datums y := by
  simp only [valueComputation]
  split <;> simp [setDatum_datums_other _ _ _ h]

theorem valueComputation_recursing (ih : InputHandler H) (env : Env) (w : World H)
    (d : DatumId) :
    ((valueComputation ih env w d).2.datums d).recursing = (w.datums d).recursing := by
  simp only [valueComputation]
  split <;> simp

/-- A value computation leaves in the upstream set of its datum what was
there when it started, united with the sets its calls of `connectUpstream`
merged. -/
theorem runEval_upstream (e : Eval) (w : World H) (d : DatumId) :
    ((runEval e w d).1.datums d)._upstream =
      (w.datums d)._upstream ∪ unionAll (mergedSets e w d) := by
  induction e generalizing w with
  | done v => simp [runEval, mergedSets, unionAll]
  | connectUpstream u k ih0 =>
      simp only [runEval, mergedSets]
      rw [ih0, connectUpstream_datums_self]
      simp [unionAll, Finset.union_assoc]

theorem update_upstream (ih : InputHandler H) (env : Env) (w : World H) (d : DatumId)
    (h : (w.datums d).recursing = false) :
    ((update ih env w d).datums d)._upstream =
      ((newValue ih env (afterPostInit env w d) d).1.datums d)._upstream := by
  rw [update_datums_self ih env w d h, storeFields_fst]

theorem World.eq_of_fields {w w2 : World H} (h1 : w.datums = w2.datums)
    (h2 : w.links = w2.links) (h3 : w.conns = w2.conns) (h4 : w.log = w2.log) : w = w2 := by
  cases w; cases w2; simp_all

theorem foldl_onDisconnectRequest_conns (us : List DatumId) (a a2 : World H) (d : DatumId)
    (h : a.conns = a2.conns) :
    (us.foldl (fun acc u => onDisconnectRequest acc u d) a).conns =
      (us.foldl (fun acc u => onDisconnectRequest acc u d) a2).conns := by
  induction us generalizing a a2 with
  | nil => exact h
  | cons u us ih0 =>
      simp only [List.foldl_cons]
      apply ih0
      simp [onDisconnectRequest, World.disconnect, h]

theorem emitDisconnectFrom_conns_congr (w w2 : World H) (d : DatumId)
    (h : w.conns = w2.conns) :
    (emitDisconnectFrom w d).conns = (emitDisconnectFrom w2 d).conns := by
  unfold emitDisconnectFrom
  rw [h]
  exact foldl_onDisconnectRequest_conns _ _ _ d h

/-- The value computation and the world in which it starts do not depend on
what the upstream set of the datum held before. -/
theorem valueComputation_forgets_upstream (ih : InputHandler H) (env : Env)
    (w : World H) (d : DatumId) (s : Finset DatumId) :
    valueComputation ih env
        (afterPostInit env (w.setDatum d { w.datums d with _upstream := s }) d) d =
      valueComputation ih env (afterPostInit env w d) d := by
  have hd : ∀ y, ((emitDisconnectFrom (afterPostInit env
        (w.setDatum d { w.datums d with _upstream := s }) d) d).setDatum d
        { (emitDisconnectFrom (afterPostInit env
          (w.setDatum d { w.datums d with _upstream := s }) d) d).datums d with
          _upstream := {d} }).datums y =
      ((emitDisconnectFrom (afterPostInit env w d) d).setDatum d
        { (emitDisconnectFrom (afterPostInit env w d) d).datums d with
          _upstream := {d} }).datums y := by
    intro y
    by_cases hy : y = d
    · subst hy
      simp [afterPostInit_datums_self]
    · simp [setDatum_datums_other _ _ _ hy, afterPostInit_datums_other _ _ _ hy]
  have hlog : (afterPostInit env (w.setDatum d { w.datums d with _upstream := s }) d).log =
      (afterPostInit env w d).log := by
    simp only [afterPostInit, setDatum_datums_self]
    split
    · rw [postInit_log, postInit_log]; simp
    · rfl
  have hconns : (afterPostInit env (w.setDatum d { w.datums d with _upstream := s }) d).conns =
      (afterPostInit env w d).conns := by
    simp only [afterPostInit, setDatum_datums_self, postInit]
    split <;> (try split) <;> rfl
  have hlinks : (afterPostInit env (w.setDatum d { w.datums d with _upstream := s }) d).links =
      (afterPostInit env w d).links := by
    simp only [afterPostInit, setDatum_datums_self, postInit]
    split <;> (try split) <;> rfl
  have hw : (emitDisconnectFrom (afterPostInit env
        (w.setDatum d { w.datums d with _upstream := s }) d) d).setDatum d
        { (emitDisconnectFrom (afterPostInit env
          (w.setDatum d { w.datums d with _upstream := s }) d) d).datums d with
          _upstream := {d} } =
      (emitDisconnectFrom (afterPostInit env w d) d).setDatum d
        { (emitDisconnectFrom (afterPostInit env w d) d).datums d with
          _upstream := {d} } := by
    apply World.eq_of_fields
    · funext y; exact hd y
    · simp [hlinks]
    · simp only [setDatum_conns]; exact emitDisconnectFrom_conns_congr _ _ d hconns
    · simp [hlog]
  simp only [valueComputation]
  rw [hw]

theorem update_upstream_formula (ih : InputHandler H) (env : Env) (w : World H)
    (d : DatumId) (hr : (w.datums d).recursing = false) :
    ((update ih env w d).datums d)._upstream =
      {d} ∪ unionAll (mergedSets (valueComputation ih env (afterPostInit env w d) d).1
        (valueComputation ih env (afterPostInit env w d) d).2 d) := by
  rw [update_upstream ih env w d hr, newValue_eq_runEval, runEval_upstream,
    valueComputation_upstream_self]

theorem update_mem_upstream_self (ih : InputHandler H) (env : Env) (w : World H)
    (d : DatumId) (hr : (w.datums d).recursing = false) :
    d ∈ ((update ih env w d).datums d)._upstream := by
  rw [update_upstream_formula ih env w d hr]
  simp

theorem update_updated_upstream (ih : InputHandler H) (env : Env) (w : World H)
    (x d : DatumId)
    (h : (w.datums d).post_init_called = true → d ∈ (w.datums d)._upstream) :
    ((update ih env w x).datums d).post_init_called = true →
      d ∈ ((update ih env w x).datums d)._upstream := by
  by_cases hx : d = x
  · subst hx
    cases hr : (w.datums d).recursing
    · intro _
      exact update_mem_upstream_self ih env w d hr
    · simpa [update, hr] using h
  · rw [update_datums_other ih env w x hx]
    exact h

/-- C15 (amended): in every world reachable from construction, a datum that
has been updated (its post-init latch is set, which the first call of `update`
that is not suppressed does) has itself in its upstream set, and keeps it
there across `update` and `connectUpstream`.  A datum as constructed is not
covered: its upstream set is empty. -/
theorem reachable_updated_upstream_contains_self (ih : InputHandler H) (w : World H)
    (hw : Reachable ih w) (d : DatumId) :
    (w.datums d).post_init_called = true → d ∈ (w.datums d)._upstream := by
  induction hw with
  | init name e0 owner => simp [World.init, Datum.new]
  | subclassSet x h r _ ih0 =>
      obtain ⟨hd, rc, e⟩ := subclassSet_datums _ x h r d
      rw [e]; exact ih0
  | update env x _ ih0 => exact update_updated_upstream ih env _ x d ih0
  | addLink x l _ hl ih0 =>
      obtain ⟨hd, e⟩ := addLink_datums ih _ _ x l hl d
      rw [e]; exact ih0
  | deleteLink x u _ hl ih0 =>
      obtain ⟨hd, e⟩ := deleteLink_datums ih _ _ x u hl d
      rw [e]; exact ih0
  | connectUpstream x u _ ih0 =>
      by_cases hx : d = x
      · subst hx
        rw [connectUpstream_datums_self]
        intro hp
        exact Finset.mem_union_left _ (ih0 hp)
      · rw [connectUpstream_datums_other _ _ _ hx]
        exact ih0

theorem reachable_world3 : Reachable oneLink world3 :=
  Reachable.update _ _ reachable_world2

/-- Witness of C15 (amended): datum 1 of the sample world has been updated
with an expression that refers to datum 0, and then connects to datum 0 once
more. -/
theorem reachable_updated_upstream_contains_self_witness :
    Reachable oneLink (connectUpstream world3 1 0).1 ∧
    (((connectUpstream world3 1 0).1.datums 1).post_init_called = true →
      1 ∈ ((connectUpstream world3 1 0).1.datums 1)._upstream) :=
  ⟨Reachable.connectUpstream _ _ reachable_world3,
    reachable_updated_upstream_contains_self oneLink _
      (Reachable.connectUpstream _ _ reachable_world3) 1⟩

/-- C15 as stated fails at construction: in the world of freshly constructed
datums the upstream set of datum 0 is empty and does not contain datum 0; it
still does not after `connectUpstream` is called on datum 0 with datum 1. -/
theorem constructed_upstream_lacks_self :
    Reachable oneLink world0 ∧
    (world0.datums 0)._upstream = ∅ ∧
    0 ∉ (world0.datums 0)._upstream ∧
    Reachable oneLink (connectUpstream world0 0 1).1 ∧
    0 ∉ ((connectUpstream world0 0 1).1.datums 0)._upstream :=
  ⟨Reachable.init _ _ _, by decide, by decide,
    Reachable.connectUpstream _ _ (Reachable.init _ _ _), by decide⟩

/-! ## The recursion guard and the post-init latch -/

theorem setRecursing_datums_self (w : World H) (d : DatumId) (r : Bool) :
    (setRecursing w d r).datums d = { w.datums d with recursing := r } := by
  simp [setRecursing, subclassSet]

@[simp] theorem setRecursing_log (w : World H) (d : DatumId) (r : Bool) :
    (setRecursing w d r).log = w.log := rfl

theorem afterPostInit_count_onNameChange (env : Env) (w : World H) (d : DatumId) :
    (afterPostInit env w d).log.count (Event.onNameChange (w.datums d).objectName) =
      w.log.count (Event.onNameChange (w.datums d).objectName) +
        (if (w.datums d).post_init_called then 0 else 1) := by
  unfold afterPostInit
  cases hp : (w.datums d).post_init_called
  · simp only [Bool.not_false, if_true, postInit_log]
    split <;> simp [List.count_cons]
  · simp

/-- A call of `update` that is not suppressed notifies the name collaborator
once when the latch is down and not at all when it is set, and leaves the latch
set and the name as it was. -/
theorem update_onNameChange (ih : InputHandler H) (env : Env) (w : World H) (d : DatumId)
    (hr : (w.datums d).recursing = false) :
    (update ih env w d).log.count (Event.onNameChange (w.datums d).objectName) =
      w.log.count (Event.onNameChange (w.datums d).objectName) +
        (if (w.datums d).post_init_called then 0 else 1) ∧
    ((update ih env w d).datums d).post_init_called = true ∧
    ((update ih env w d).datums d).objectName = (w.datums d).objectName := by
  obtain ⟨s, hs⟩ := update_datums_self_fields ih env w d hr
  refine ⟨?_, by rw [hs], by rw [hs]⟩
  rw [update_log ih env w d hr, newValue_log]
  simp only [List.count_append, afterPostInit_count_onNameChange]
  split <;> split <;> split <;> simp [List.count_cons]

/-- Once the latch is set, no sequence of calls of `update` notifies the name
collaborator or lowers the latch. -/
theorem updateSeq_latched (ih : InputHandler H) (steps : List (Bool × Env)) (w : World H)
    (d : DatumId) (hp : (w.datums d).post_init_called = true) :
    (updateSeq ih steps w d).log.count (Event.onNameChange (w.datums d).objectName) =
      w.log.count (Event.onNameChange (w.datums d).objectName) ∧
    ((updateSeq ih steps w d).datums d).post_init_called = true := by
  induction steps generalizing w with
  | nil => exact ⟨rfl, hp⟩
  | cons st rest ih0 =>
      obtain ⟨r, env⟩ := st
      simp only [updateSeq]
      cases r
      · have hr : ((setRecursing w d false).datums d).recursing = false := by
          rw [setRecursing_datums_self]
        obtain ⟨h1, h2, h3⟩ := update_onNameChange ih env (setRecursing w d false) d hr
        have hn : ((setRecursing w d false).datums d).objectName = (w.datums d).objectName := by
          rw [setRecursing_datums_self]
        have hq : ((setRecursing w d false).datums d).post_init_called = true := by
          rw [setRecursing_datums_self]; exact hp
        rw [hn] at h1 h3
        rw [hq] at h1
        have := ih0 (update ih env (setRecursing w d false) d) h2
        rw [h3] at this
        refine ⟨?_, this.2⟩
        rw [this.1, h1]
        simp
      · have hr : ((setRecursing w d true).datums d).recursing = true := by
          rw [setRecursing_datums_self]
        have hu : update ih env (setRecursing w d true) d = setRecursing w d true := by
          simp [update, hr]
        rw [hu]
        have hq : ((setRecursing w d true).datums d).post_init_called = true := by
          rw [setRecursing_datums_self]; exact hp
        have := ih0 (setRecursing w d true) hq
        rw [setRecursing_datums_self] at this
        simpa using this

/-! ## Destruction of a link -/

theorem afterPostInit_count_disconnectFrom (env : Env) (w : World H) (d b : DatumId) :
    (afterPostInit env w d).log.count (Event.disconnectFrom b) =
      w.log.count (Event.disconnectFrom b) := by
  unfold afterPostInit
  split
  · rw [postInit_log]
    split <;> simp [List.count_cons]
  · rfl

/-- A call of `update` that is not suppressed emits `disconnectFrom` of its
datum exactly once. -/
theorem update_count_disconnectFrom_self (ih : InputHandler H) (env : Env) (w : World H)
    (d : DatumId) (hr : (w.datums d).recursing = false) :
    (update ih env w d).log.count (Event.disconnectFrom d) =
      w.log.count (Event.disconnectFrom d) + 1 := by
  rw [update_log ih env w d hr, newValue_log]
  simp only [List.count_append, afterPostInit_count_disconnectFrom]
  split <;> split <;> simp [List.count_cons]

theorem update_count_disconnectFrom_other (ih : InputHandler H) (env : Env) (w : World H)
    (x b : DatumId) (hx : x ≠ b) :
    (update ih env w x).log.count (Event.disconnectFrom b) =
      w.log.count (Event.disconnectFrom b) := by
  cases hr : (w.datums x).recursing
  · rw [update_log ih env w x hr, newValue_log]
    simp only [List.count_append, afterPostInit_count_disconnectFrom]
    split <;> split <;> simp [List.count_cons, hx]
  · simp [update, hr]

/-- The subscription of line 54 is in the table after `addLink`. -/
theorem addLink_attached (ih : InputHandler H) (w w2 : World H) (b : DatumId) (l : LinkId)
    (h : addLink ih w b l = some w2) : Attached w2 b l := by
  unfold addLink at h
  split at h
  · cases h
  · cases h
    simp [Attached, World.connect, World.setLink]

theorem attached_mem_destroyedReceivers (w : World H) (b : DatumId) (l : LinkId)
    (h : Attached w b l) :
    (Obj.datum b, Method.update) ∈ destroyedReceivers w.conns l := by
  unfold destroyedReceivers
  rw [List.mem_filterMap]
  exact ⟨_, h, by simp⟩

theorem mem_disconnect_of_ne (w : World H) (c x : Conn) (hx : x ∈ w.conns) (hne : x ≠ c) :
    x ∈ (w.disconnect c).conns := by
  simp [World.disconnect, hx, hne]

theorem attached_onDisconnectRequest (w : World H) (u d b : DatumId) (l : LinkId)
    (h : Attached w b l) : Attached (onDisconnectRequest w u d) b l := by
  unfold Attached onDisconnectRequest
  refine mem_disconnect_of_ne _ _ _ (mem_disconnect_of_ne _ _ _
    (mem_disconnect_of_ne _ _ _ h ?_) ?_) ?_ <;> simp

theorem attached_emitDisconnectFrom (w : World H) (d b : DatumId) (l : LinkId)
    (h : Attached w b l) : Attached (emitDisconnectFrom w d) b l := by
  unfold emitDisconnectFrom
  have h0 : Attached (w.record (Event.disconnectFrom d)) b l := h
  generalize disconnectReceivers w.conns d = us
  generalize w.record (Event.disconnectFrom d) = a at h0
  induction us generalizing a with
  | nil => exact h0
  | cons u us ih0 => exact ih0 _ (attached_onDisconnectRequest a u d b l h0)

theorem attached_connectUpstream (w : World H) (d u b : DatumId) (l : LinkId)
    (h : Attached w b l) : Attached (connectUpstream w d u).1 b l := by
  unfold Attached connectUpstream
  exact mem_connectUnique_of_mem _ _ (mem_connectUnique_of_mem _ _
    (mem_connectUnique_of_mem _ _ h))

theorem attached_runEval (e : Eval) (w : World H) (d b : DatumId) (l : LinkId)
    (h : Attached w b l) : Attached (runEval e w d).1 b l := by
  induction e generalizing w with
  | done v => exact h
  | connectUpstream u k ih0 => exact ih0 _ _ (attached_connectUpstream w d u b l h)

theorem attached_afterPostInit (env : Env) (w : World H) (d b : DatumId) (l : LinkId)
    (h : Attached w b l) : Attached (afterPostInit env w d) b l := by
  unfold afterPostInit postInit
  split
  · split <;> exact h
  · exact h

/-- A link attached to `b` stays attached across `update` of any datum. -/
theorem attached_update (ih : InputHandler H) (env : Env) (w : World H) (x b : DatumId)
    (l : LinkId) (h : Attached w b l) : Attached (update ih env w x) b l := by
  have h1 : Attached (newValue ih env (afterPostInit env w x) x).1 b l := by
    simp only [newValue]
    split <;>
      exact attached_runEval _ _ x b l
        (attached_emitDisconnectFrom _ x b l (attached_afterPostInit env w x b l h))
  simp only [update]
  split
  · exact h
  · split <;> exact h1

/-- A link attached to `b` stays attached across `deleteLink` on any datum. -/
theorem attached_deleteLink (ih : InputHandler H) (w w2 : World H) (x u b : DatumId)
    (l : LinkId) (hd : deleteLink ih w x u = some w2) (h : Attached w b l) :
    Attached w2 b l := by
  unfold deleteLink at hd
  split at hd
  · cases hd
  · cases hd; exact h

/-! ## Delivery: what nested calls of `update` leave in place -/

theorem Extends.refl (ih : InputHandler H) (w : World H) : Extends ih w w :=
  ⟨fun _ => rfl, fun _ => rfl, rfl, ⟨[], by simp⟩, fun _ _ h => h, fun _ h => h⟩

theorem Extends.trans {ih : InputHandler H} {w1 w2 w3 : World H}
    (h12 : Extends ih w1 w2) (h23 : Extends ih w2 w3) : Extends ih w1 w3 := by
  obtain ⟨a1, a2, a3, ⟨ys, a4⟩, a5, a6⟩ := h12
  obtain ⟨b1, b2, b3, ⟨zs, b4⟩, b5, b6⟩ := h23
  refine ⟨fun y => by rw [b1, a1], fun y => by rw [b2, a2], by rw [b3, a3],
    ⟨ys ++ zs, by rw [b4, a4, List.append_assoc]⟩, fun b l h => b5 b l (a5 b l h),
    fun y h => b6 y (a6 y h)⟩

theorem update_links (ih : InputHandler H) (env : Env) (w : World H) (d : DatumId) :
    (update ih env w d).links = w.links := by
  have hp : (afterPostInit env w d).links = w.links := by
    simp only [afterPostInit, postInit]
    split <;> (try split) <;> rfl
  simp only [update]
  split
  · rfl
  · split <;> simp [newValue_links, hp]

theorem update_log_append (ih : InputHandler H) (env : Env) (w : World H) (d : DatumId) :
    ∃ ys, (update ih env w d).log = w.log ++ ys := by
  cases hr : (w.datums d).recursing
  · rw [update_log ih env w d hr, newValue_log]
    have hp : ∃ ps, (afterPostInit env w d).log = w.log ++ ps := by
      unfold afterPostInit
      split
      · exact ⟨_, postInit_log env w d⟩
      · exact ⟨[], by simp⟩
    obtain ⟨ps, hps⟩ := hp
    rw [hps]
    simp only [List.append_assoc]
    exact ⟨_, rfl⟩
  · exact ⟨[], by simp [update, hr]⟩

theorem update_self_editable (ih : InputHandler H) (env : Env) (w : World H) (d : DatumId)
    (hr : (w.datums d).recursing = false) :
    ((update ih env w d).datums d).editable = canEdit ih ((update ih env w d).datums d) := by
  obtain ⟨s, hs⟩ := update_datums_self_fields ih env w d hr
  have hc : canEdit ih ((update ih env w d).datums d) = canEdit ih (w.datums d) := by
    simp only [canEdit]
    rw [hasInputValue_congr ih (show ((update ih env w d).datums d).input_handler =
      (w.datums d).input_handler by rw [hs])]
  rw [hc, hs]

theorem update_extends (ih : InputHandler H) (env : Env) (w : World H) (d : DatumId) :
    Extends ih w (update ih env w d) := by
  cases hr : (w.datums d).recursing
  · refine ⟨?_, ?_, update_links ih env w d, update_log_append ih env w d,
      fun b l h => attached_update ih env w d b l h, ?_⟩
    · intro y
      by_cases hy : y = d
      · subst hy
        obtain ⟨s, hs⟩ := update_datums_self_fields ih env w y hr
        rw [hs]
      · rw [update_datums_other ih env w d hy]
    · intro y
      by_cases hy : y = d
      · subst hy; exact update_recursing ih env w y
      · rw [update_datums_other ih env w d hy]
    · intro y h
      by_cases hy : y = d
      · subst hy; exact update_self_editable ih env w y hr
      · rw [update_datums_other ih env w d hy]; exact h
  · have : update ih env w d = w := by simp [update, hr]
    rw [this]
    exact Extends.refl ih w

theorem record_extends (ih : InputHandler H) (w : World H) (e : Event) :
    Extends ih w (w.record e) :=
  ⟨fun _ => rfl, fun _ => rfl, rfl, ⟨[e], rfl⟩, fun _ _ h => h, fun _ h => h⟩

/-- A fold of calls that each extend the world extends the world. -/
theorem foldlM_extends (ih : InputHandler H) {α : Type}
    (f : World H × Nat → α → Option (World H × Nat))
    (hf : ∀ acc x out, f acc x = some out → Extends ih acc.1 out.1)
    (xs : List α) (init out : World H × Nat)
    (h : xs.foldlM f init = some out) : Extends ih init.1 out.1 := by
  induction xs generalizing init with
  | nil =>
      simp only [List.foldlM_nil, Option.pure_def, Option.some.injEq] at h
      subst h
      exact Extends.refl ih _
  | cons x xs ih0 =>
      simp only [List.foldlM_cons, Option.bind_eq_bind] at h
      cases hx : f init x with
      | none => rw [hx] at h; simp at h
      | some mid =>
          rw [hx] at h
          exact Extends.trans (hf init x mid hx) (ih0 mid h)

theorem updateD_extends (ih : InputHandler H) (oracle : Nat → Env) (fuel : Nat)
    (s : World H × Nat) (d : DatumId) (out : World H × Nat)
    (h : updateD ih oracle fuel s d = some out) : Extends ih s.1 out.1 := by
  induction fuel generalizing s d out with
  | zero => simp [updateD] at h
  | succ fuel ih0 =>
      simp only [updateD] at h
      split at h
      · simp only [Option.some.injEq] at h
        subst h
        exact Extends.refl ih _
      · split at h
        · exact Extends.trans (update_extends ih (oracle s.2) s.1 d)
            (foldlM_extends ih _ (fun acc x o ho => ih0 acc x o ho) _ _ out h)
        · simp only [Option.some.injEq] at h
          subst h
          exact update_extends ih (oracle s.2) s.1 d

theorem emitChanged_extends (ih : InputHandler H) (oracle : Nat → Env) (fuel : Nat)
    (s : World H × Nat) (d : DatumId) (out : World H × Nat)
    (h : emitChanged ih oracle fuel s d = some out) : Extends ih s.1 out.1 :=
  Extends.trans (record_extends ih s.1 (Event.changed d))
    (foldlM_extends ih _ (fun acc x o ho => updateD_extends ih oracle fuel acc x o ho)
      _ _ out h)

theorem updateD_succ (ih : InputHandler H) (oracle : Nat → Env) (fuel : Nat)
    (s : World H × Nat) (d : DatumId) (hr : (s.1.datums d).recursing = false) :
    updateD ih oracle (fuel + 1) s d =
      if hasChanged ih (oracle s.2) s.1 d then
        (changedReceivers (update ih (oracle s.2) s.1 d).conns d).foldlM
          (fun acc x => updateD ih oracle fuel acc x)
          (update ih (oracle s.2) s.1 d, s.2 + 1)
      else some (update ih (oracle s.2) s.1 d, s.2 + 1) := by
  simp [updateD, hr]

/-- With no `update` slot subscribed when `changed` is emitted, the call is
its body. -/
theorem updateD_no_receivers (ih : InputHandler H) (oracle : Nat → Env) (fuel : Nat)
    (s : World H × Nat) (d : DatumId) (hr : (s.1.datums d).recursing = false)
    (hn : changedReceivers (update ih (oracle s.2) s.1 d).conns d = []) :
    updateD ih oracle (fuel + 1) s d = some (update ih (oracle s.2) s.1 d, s.2 + 1) := by
  rw [updateD_succ ih oracle fuel s d hr, hn]
  split <;> rfl

/-- The world that a call returns extends the world its body leaves. -/
theorem updateD_extends_body (ih : InputHandler H) (oracle : Nat → Env) (fuel : Nat)
    (s : World H × Nat) (d : DatumId) (out : World H × Nat)
    (hr : (s.1.datums d).recursing = false)
    (h : updateD ih oracle (fuel + 1) s d = some out) :
    Extends ih (update ih (oracle s.2) s.1 d) out.1 := by
  rw [updateD_succ ih oracle fuel s d hr] at h
  split at h
  · exact foldlM_extends ih _ (fun acc x o ho => updateD_extends ih oracle fuel acc x o ho)
      _ _ out h
  · simp only [Option.some.injEq] at h
    subst h
    exact Extends.refl ih _

theorem Extends.count_le {ih : InputHandler H} {w w2 : World H} (h : Extends ih w w2)
    (e : Event) : w.log.count e ≤ w2.log.count e := by
  obtain ⟨ys, hys⟩ := h.2.2.2.1
  rw [hys, List.count_append]
  omega

/-- C1 (amended): a call of `update` that is not suppressed executes its own
`emit changed()` (line 156) exactly once when one of `value`, `valid`,
`editable`, `repr` differs between the entry of the call and line 154, and not
at all otherwise.  The `update` slots subscribed to the signal run before the
call returns and may emit `changed` again: the call as a whole emits at least
what its body emits, and exactly that when no `update` slot is subscribed at
the emission. -/
theorem update_own_emit_once_iff_observable_differs (ih : InputHandler H)
    (oracle : Nat → Env) (fuel : Nat) (w : World H) (n : Nat) (d : DatumId)
    (h : (w.datums d).recursing = false) :
    (update ih (oracle n) w d).log.count (Event.changed d) =
      w.log.count (Event.changed d) +
        (if ((update ih (oracle n) w d).datums d).observable ≠ (w.datums d).observable
          then 1 else 0) ∧
    (changedReceivers (update ih (oracle n) w d).conns d = [] →
      updateD ih oracle (fuel + 1) (w, n) d = some (update ih (oracle n) w d, n + 1)) ∧
    (∀ out, updateD ih oracle (fuel + 1) (w, n) d = some out →
      (update ih (oracle n) w d).log.count (Event.changed d) ≤
        out.1.log.count (Event.changed d)) :=
  ⟨update_body_changed_count ih (oracle n) w d h,
    fun hn => updateD_no_receivers ih oracle fuel (w, n) d h hn,
    fun out ho => (updateD_extends_body ih oracle fuel (w, n) d out h ho).count_le _⟩

/-- Witness of C1 (amended) on the first update of a fresh datum to which
nothing is subscribed: one observable field differs and the whole call emits
`changed` once. -/
theorem update_own_emit_once_iff_observable_differs_witness :
    ((world1.datums 0).recursing = false ∧
      changedReceivers (update oneLink (oracleConst (sampleEnv (some 5) "5") 0) world1 0).conns 0
        = []) ∧
    (update oneLink (oracleConst (sampleEnv (some 5) "5") 0) world1 0).log.count
        (Event.changed 0) = world1.log.count (Event.changed 0) +
        (if ((update oneLink (oracleConst (sampleEnv (some 5) "5") 0) world1 0).datums
            0).observable ≠ (world1.datums 0).observable then 1 else 0) ∧
    updateD oneLink (oracleConst (sampleEnv (some 5) "5")) (1 + 1) (world1, 0) 0 =
      some (update oneLink (oracleConst (sampleEnv (some 5) "5") 0) world1 0, 0 + 1) :=
  ⟨⟨by decide, by decide⟩,
    (update_own_emit_once_iff_observable_differs oneLink
      (oracleConst (sampleEnv (some 5) "5")) 1 world1 0 0 (by decide)).1,
    (update_own_emit_once_iff_observable_differs oneLink
      (oracleConst (sampleEnv (some 5) "5")) 1 world1 0 0 (by decide)).2.1 (by decide)⟩

/-- C1 as stated fails: the expression of the fresh datum 0 refers to datum 0
itself, so datum 0 is subscribed to its own `changed` when line 156 emits it.
The slot `update` of datum 0 runs inside the call, gets another value and
emits `changed` again: one call of `update`, with the recursion flag down,
emits `changed` of datum 0 twice. -/
theorem update_emits_changed_twice :
    (world1.datums 0).recursing = false ∧
    world1.log.count (Event.changed 0) = 0 ∧
    (updateD oneLink oracleSelfThenSix 2 (world1, 0) 0).map
      (fun s => s.1.log.count (Event.changed 0)) = some 2 := by
  decide

/-- C11 (amended): a valid datum caches the object `v` and a call of `update`
computes a non-empty candidate `c` semantically equal to `v`.  When the body of
the call reaches line 154 the cached value is still the object `v` and the
datum is still valid, and the body executes its `emit changed()` exactly when
`editable` or `repr` changed.  With no `update` slot subscribed at the
emission this is the state in which the call returns; a subscribed `update`
slot of the datum itself runs before the call returns and may replace the
value. -/
theorem update_equal_candidate_keeps_value (ih : InputHandler H) (oracle : Nat → Env)
    (fuel : Nat) (w : World H) (n : Nat) (d : DatumId) (v c : PyObj)
    (hr : (w.datums d).recursing = false)
    (hvalid : (w.datums d).valid = true)
    (hvalue : (w.datums d).value = some v)
    (hc : candidate ih (oracle n) w d = some c)
    (heq : semEq (oracle n) c v) :
    (((update ih (oracle n) w d).datums d).value = some v ∧
    ((update ih (oracle n) w d).datums d).valid = true ∧
    (update ih (oracle n) w d).log.count (Event.changed d) =
      w.log.count (Event.changed d) +
        (if ((update ih (oracle n) w d).datums d).editable ≠ (w.datums d).editable ∨
            ((update ih (oracle n) w d).datums d).repr ≠ (w.datums d).repr then 1 else 0)) ∧
    (changedReceivers (update ih (oracle n) w d).conns d = [] →
      updateD ih oracle (fuel + 1) (w, n) d = some (update ih (oracle n) w d, n + 1)) :=
  ⟨update_body_equal_candidate ih (oracle n) w d v c hr hvalid hvalue hc heq,
    fun hn => updateD_no_receivers ih oracle fuel (w, n) d hr hn⟩

/-- Witness of C11 (amended): datum 0 caches the object 5, the candidate is the
object 15, equal to it modulo 10, and nothing is subscribed to datum 0. -/
theorem update_equal_candidate_keeps_value_witness :
    ((world2.datums 0).recursing = false ∧ (world2.datums 0).valid = true ∧
      (world2.datums 0).value = some 5 ∧
      candidate oneLink (oracleConst (sampleEnv (some 15) "15") 0) world2 0 = some 15 ∧
      semEq (oracleConst (sampleEnv (some 15) "15") 0) 15 5 ∧
      changedReceivers
        (update oneLink (oracleConst (sampleEnv (some 15) "15") 0) world2 0).conns 0 = []) ∧
    (((update oneLink (oracleConst (sampleEnv (some 15) "15") 0) world2 0).datums 0).value =
      some 5 ∧
    ((update oneLink (oracleConst (sampleEnv (some 15) "15") 0) world2 0).datums 0).valid =
      true ∧
    (update oneLink (oracleConst (sampleEnv (some 15) "15") 0) world2 0).log.count
        (Event.changed 0) = world2.log.count (Event.changed 0) +
        (if ((update oneLink (oracleConst (sampleEnv (some 15) "15") 0) world2 0).datums
              0).editable ≠ (world2.datums 0).editable ∨
            ((update oneLink (oracleConst (sampleEnv (some 15) "15") 0) world2 0).datums
              0).repr ≠ (world2.datums 0).repr then 1 else 0)) ∧
    updateD oneLink (oracleConst (sampleEnv (some 15) "15")) (1 + 1) (world2, 0) 0 =
      some (update oneLink (oracleConst (sampleEnv (some 15) "15") 0) world2 0, 0 + 1) :=
  ⟨⟨by decide, by decide, by decide, by decide, by unfold semEq; decide, by decide⟩,
    (update_equal_candidate_keeps_value oneLink (oracleConst (sampleEnv (some 15) "15")) 1
      world2 0 0 5 15 (by decide) (by decide) (by decide) (by decide)
      (by unfold semEq; decide)).1,
    (update_equal_candidate_keeps_value oneLink (oracleConst (sampleEnv (some 15) "15")) 1
      world2 0 0 5 15 (by decide) (by decide) (by decide) (by decide)
      (by unfold semEq; decide)).2 (by decide)⟩

/-- C11 as stated fails: datum 0 is valid and caches the object 5; its
expression refers to datum 0 itself and evaluates to the object 15, equal to 5
modulo 10, with a new display string.  The body keeps the object 5 and emits
`changed`; datum 0 is subscribed to it, its slot `update` runs inside the call
with the candidate 6 and replaces the value: when the call returns the cached
value is the object 6, and `changed` has been emitted twice. -/
theorem update_equal_candidate_value_replaced :
    ((world2.datums 0).recursing = false ∧ (world2.datums 0).valid = true ∧
      (world2.datums 0).value = some 5 ∧
      candidate oneLink (oracleSelfThenSix 0) world2 0 = some 15 ∧
      PyObject_RichCompareBool_NE (oracleSelfThenSix 0).ne 15 (some 5) = 0) ∧
    (updateD oneLink oracleSelfThenSix 2 (world2, 0) 0).map
      (fun s => ((s.1.datums 0).value,
        s.1.log.count (Event.changed 0) - world2.log.count (Event.changed 0))) =
      some (some 6, 2) := by
  decide

theorem changedReceivers_append (cs ds : List Conn) (d : DatumId) :
    changedReceivers (cs ++ ds) d = changedReceivers cs d ++ changedReceivers ds d := by
  simp [changedReceivers, List.filterMap_append]

/-- The world in which `addLink` makes its first emission: the link is handed
to the handler, its target is set, the subscriptions of lines 53-54 are
made.  The body and the delivering call continue from there. -/
theorem addLinkD_eq (ih : InputHandler H) (oracle : Nat → Env) (fuel : Nat)
    (w : World H) (n : Nat) (b : DatumId) (l : LinkId) (h : H)
    (hh : (w.datums b).input_handler = some h) :
    ∃ w4 : World H,
      (w4.datums b).input_handler = some (ih.addInput h l (w.links l)) ∧
      w4.links l = { parent := (w.links l).parent, target := some b } ∧
      w4.log = w.log ∧
      w4.conns = w.conns ++ [⟨.datum b, .destroyed, .link l, .deleteLater⟩,
        ⟨.link l, .destroyed, .datum b, .update⟩] ∧
      addLink ih w b l =
        some ((((w4.record (.changed b)).record (.changed (w4.links l).parent)).connect
          ⟨.link l, .destroyed, .datum b, .changed⟩).connect
          ⟨.link l, .destroyed, .datum (w4.links l).parent, .changed⟩) ∧
      addLinkD ih oracle fuel (w, n) b l =
        (emitChanged ih oracle fuel (w4, n) b).bind fun s5 =>
        (emitChanged ih oracle fuel s5 (s5.1.links l).parent).bind fun s6 =>
        some ((s6.1.connect ⟨.link l, .destroyed, .datum b, .changed⟩).connect
          ⟨.link l, .destroyed, .datum (s6.1.links l).parent, .changed⟩, s6.2) := by
  refine ⟨_, ?_, ?_, ?_, ?_, by simp only [addLink, hh]; rfl,
    by simp only [addLinkD, hh]; rfl⟩
  · simp [World.connect, World.setLink]
  · simp [World.connect, World.setLink]
  · simp [World.connect, World.setLink]
  · simp [World.connect, World.setLink]

theorem emitChanged_no_receivers (ih : InputHandler H) (oracle : Nat → Env) (fuel : Nat)
    (s : World H × Nat) (d : DatumId) (hn : changedReceivers s.1.conns d = []) :
    emitChanged ih oracle fuel s d = some (s.1.record (Event.changed d), s.2) := by
  simp [emitChanged, hn]

/-- An emission of `changed` of `d` that returns has logged the signal, then
whatever the slots it ran have logged. -/
theorem emitChanged_log (ih : InputHandler H) (oracle : Nat → Env) (fuel : Nat)
    (s : World H × Nat) (d : DatumId) (out : World H × Nat)
    (h : emitChanged ih oracle fuel s d = some out) :
    ∃ ys, out.1.log = s.1.log ++ Event.changed d :: ys := by
  have := foldlM_extends ih _ (fun acc x o ho => updateD_extends ih oracle fuel acc x o ho)
    _ _ out h
  obtain ⟨ys, hys⟩ := this.2.2.2.1
  exact ⟨ys, by rw [hys]; simp⟩

/-- C13 (amended): for a datum `b` with the input handler `h` and a link `l`
with source `a`, the body of `b.addLink(l)` hands `l` to the handler, sets the
target of `l` to `b`, executes exactly two emit statements, `changed` of `b`
and then `changed` of `a`, and writes no cached field.  The `update` slots
subscribed to these signals run inside `addLink`: when the call returns the
link is with the handler, its target is `b`, and the log holds `changed` of
`b` and later `changed` of `a`, each followed by what the slots emitted.  With
no `update` slot subscribed to either signal the call is its body: two
signals, no field recomputed. -/
theorem addLink_attaches_and_emits_two (ih : InputHandler H) (oracle : Nat → Env)
    (w : World H) (b a : DatumId) (l : LinkId) (h : H)
    (hh : (w.datums b).input_handler = some h) (hl : (w.links l).parent = a) :
    (∃ w2, addLink ih w b l = some w2 ∧
      (w2.datums b).input_handler = some (ih.addInput h l (w.links l)) ∧
      w2.links l = { parent := a, target := some b } ∧
      w2.log = w.log ++ [Event.changed b, Event.changed a] ∧
      ∀ y, (w2.datums y).observable = (w.datums y).observable) ∧
    (changedReceivers w.conns b = [] → changedReceivers w.conns a = [] →
      ∀ fuel n, addLinkD ih oracle fuel (w, n) b l =
        (addLink ih w b l).map (fun w2 => (w2, n))) ∧
    (∀ fuel n out, addLinkD ih oracle fuel (w, n) b l = some out →
      (out.1.datums b).input_handler = some (ih.addInput h l (w.links l)) ∧
      out.1.links l = { parent := a, target := some b } ∧
      ∃ ys zs, out.1.log = w.log ++ Event.changed b :: (ys ++ Event.changed a :: zs)) := by
  refine ⟨addLink_body ih w b a l h hh hl, ?_, ?_⟩
  · intro hb ha fuel n
    obtain ⟨w4, _, h2, _, h4, hbody, he⟩ := addLinkD_eq ih oracle fuel w n b l h hh
    have r1 : changedReceivers w4.conns b = [] := by
      rw [h4, changedReceivers_append, hb]; simp [changedReceivers]
    have r2 : changedReceivers (w4.record (Event.changed b)).conns (w4.links l).parent = [] := by
      rw [h2, hl]
      show changedReceivers w4.conns a = []
      rw [h4, changedReceivers_append, ha]; simp [changedReceivers]
    rw [he, hbody, emitChanged_no_receivers ih oracle fuel (w4, n) b r1]
    simp only [Option.bind_eq_bind, Option.some_bind, record_links]
    rw [emitChanged_no_receivers ih oracle fuel _ _ r2]
    rfl
  · intro fuel n out hout
    obtain ⟨w4, h1, h2, h3, _, _, he⟩ := addLinkD_eq ih oracle fuel w n b l h hh
    rw [he] at hout
    cases e5 : emitChanged ih oracle fuel (w4, n) b with
    | none => rw [e5] at hout; simp at hout
    | some s5 =>
        rw [e5] at hout
        simp only [Option.bind_eq_bind, Option.some_bind] at hout
        cases e6 : emitChanged ih oracle fuel s5 (s5.1.links l).parent with
        | none => rw [e6] at hout; simp at hout
        | some s6 =>
            rw [e6] at hout
            simp only [Option.some_bind, Option.some.injEq] at hout
            subst hout
            have x5 := emitChanged_extends ih oracle fuel (w4, n) b s5 e5
            have x6 := emitChanged_extends ih oracle fuel s5 _ s6 e6
            obtain ⟨ys, hys⟩ := emitChanged_log ih oracle fuel (w4, n) b s5 e5
            obtain ⟨zs, hzs⟩ := emitChanged_log ih oracle fuel s5 _ s6 e6
            have hp : (s5.1.links l).parent = a := by
              rw [x5.2.2.1, h2, hl]
            refine ⟨?_, ?_, ys, zs, ?_⟩
            · show (s6.1.datums b).input_handler = _
              rw [x6.1, x5.1, h1]
            · show s6.1.links l = _
              rw [x6.2.2.1, x5.2.2.1, h2, hl]
            · show s6.1.log = _
              rw [hzs, hys, hp, h3]
              simp

/-- Witness of C13 (amended): link 0, owned by datum 1, is added to datum 0 of
the sample world, in which nothing is subscribed to datum 0 or datum 1. -/
theorem addLink_attaches_and_emits_two_witness :
    ((world2.datums 0).input_handler = some none ∧ (world2.links 0).parent = 1 ∧
      changedReceivers world2.conns 0 = [] ∧ changedReceivers world2.conns 1 = []) ∧
    (∃ w2, addLink oneLink world2 0 0 = some w2 ∧
      (w2.datums 0).input_handler = some (oneLink.addInput none 0 (world2.links 0)) ∧
      w2.links 0 = { parent := 1, target := some 0 } ∧
      w2.log = world2.log ++ [Event.changed 0, Event.changed 1] ∧
      ∀ y, (w2.datums y).observable = (world2.datums y).observable) ∧
    addLinkD oneLink (oracleConst (sampleEnv (some 7) "7")) 1 (world2, 0) 0 0 =
      (addLink oneLink world2 0 0).map (fun w2 => (w2, 0)) :=
  ⟨⟨by decide, by decide, by decide, by decide⟩,
    (addLink_attaches_and_emits_two oneLink (oracleConst (sampleEnv (some 7) "7")) world2
      0 1 0 none (by decide) (by decide)).1,
    (addLink_attaches_and_emits_two oneLink (oracleConst (sampleEnv (some 7) "7")) world2
      0 1 0 none (by decide) (by decide)).2.1 (by decide) (by decide) 1 0⟩

/-- C13 as stated fails: in the sample world datum 0 evaluates an expression
that refers to datum 1, so its slot `update` is subscribed to `changed` of
datum 1, and it accepts link 0 from datum 1.  Inside `addLink` the emission of
`changed` of datum 1 runs `update` of datum 0, which finds the new input,
turns `editable` from true to false and emits `changed` of datum 0 again:
three `changed` signals, and a cached field recomputed. -/
theorem addLink_recomputes_subscribed_target :
    acceptsLink oneLink worldOwnerUpstream 0 0 = some true ∧
    (worldOwnerUpstream.datums 0).editable = true ∧
    (addLinkD oneLink (oracleConst (sampleEnv (some 7) "7")) 2 (worldOwnerUpstream, 0) 0 0).map
      (fun s => (s.1.log.count (Event.changed 0) -
          worldOwnerUpstream.log.count (Event.changed 0),
        s.1.log.count (Event.changed 1) - worldOwnerUpstream.log.count (Event.changed 1),
        (s.1.datums 0).editable)) = some (2, 1, false) := by
  decide

/-! ## Destruction of a link with delivery -/

/-- A call of `update` on a datum whose flag is down leaves `editable` in
agreement with `canEdit()` and has emitted `disconnectFrom` of the datum,
whatever the slots it ran did afterwards. -/
theorem updateD_self (ih : InputHandler H) (oracle : Nat → Env) (fuel : Nat)
    (s : World H × Nat) (d : DatumId) (out : World H × Nat)
    (hr : (s.1.datums d).recursing = false)
    (h : updateD ih oracle fuel s d = some out) :
    (out.1.datums d).editable = canEdit ih (out.1.datums d) ∧
    s.1.log.count (Event.disconnectFrom d) < out.1.log.count (Event.disconnectFrom d) := by
  cases fuel with
  | zero => simp [updateD] at h
  | succ fuel =>
      have hx := updateD_extends_body ih oracle fuel s d out hr h
      refine ⟨hx.2.2.2.2.2 d (update_self_editable ih (oracle s.2) s.1 d hr), ?_⟩
      have h1 := update_count_disconnectFrom_self ih (oracle s.2) s.1 d hr
      have h2 := hx.count_le (Event.disconnectFrom d)
      omega

theorem deliverD_extends (ih : InputHandler H) (oracle : Nat → Env) (fuel : Nat)
    (acc : World H × Nat) (rm : Obj × Method) (out : World H × Nat)
    (h : deliverD ih oracle fuel acc rm = some out) : Extends ih acc.1 out.1 := by
  rcases rm with ⟨o, m⟩
  cases o with
  | link l0 =>
      cases m <;>
      · simp only [deliverD, Option.some.injEq] at h
        subst h
        exact Extends.refl ih _
  | datum x =>
      cases m with
      | update => exact updateD_extends ih oracle fuel acc x out h
      | changed => exact emitChanged_extends ih oracle fuel acc x out h
      | deleteLater =>
          simp only [deliverD, Option.some.injEq] at h; subst h; exact Extends.refl ih _
      | onDisconnectRequest =>
          simp only [deliverD, Option.some.injEq] at h; subst h; exact Extends.refl ih _

/-- A fold that returns has made the call for each member of the list, in a
world that extends the initial one and is extended by the final one. -/
theorem foldlM_mem (ih : InputHandler H) {α : Type}
    (f : World H × Nat → α → Option (World H × Nat))
    (hf : ∀ acc x out, f acc x = some out → Extends ih acc.1 out.1)
    (xs : List α) (x : α) (hx : x ∈ xs) (init out : World H × Nat)
    (h : xs.foldlM f init = some out) :
    ∃ acc mid, Extends ih init.1 acc.1 ∧ f acc x = some mid ∧ Extends ih mid.1 out.1 := by
  induction xs generalizing init with
  | nil => cases hx
  | cons y ys ih0 =>
      simp only [List.foldlM_cons, Option.bind_eq_bind] at h
      cases hy : f init y with
      | none => rw [hy] at h; simp at h
      | some m =>
          rw [hy] at h
          simp only [Option.some_bind] at h
          rcases List.mem_cons.mp hx with e | hm
          · subst e
            exact ⟨init, m, Extends.refl ih _, hy, foldlM_extends ih f hf ys m out h⟩
          · obtain ⟨acc, mid, a1, a2, a3⟩ := ih0 hm m h
            exact ⟨acc, mid, Extends.trans (hf init y m hy) a1, a2, a3⟩

theorem addLinkD_attached (ih : InputHandler H) (oracle : Nat → Env) (fuel : Nat)
    (s : World H × Nat) (b : DatumId) (l : LinkId) (out : World H × Nat)
    (h : addLinkD ih oracle fuel s b l = some out) : Attached out.1 b l := by
  cases hh : (s.1.datums b).input_handler with
  | none => simp [addLinkD, hh] at h
  | some h0 =>
      obtain ⟨w4, _, _, _, h4, _, he⟩ := addLinkD_eq ih oracle fuel s.1 s.2 b l h0 hh
      rw [he] at h
      have a4 : Attached w4 b l := by
        unfold Attached; rw [h4]; simp
      cases e5 : emitChanged ih oracle fuel (w4, s.2) b with
      | none => rw [e5] at h; simp at h
      | some s5 =>
          rw [e5] at h
          simp only [Option.bind_eq_bind, Option.some_bind] at h
          cases e6 : emitChanged ih oracle fuel s5 (s5.1.links l).parent with
          | none => rw [e6] at h; simp at h
          | some s6 =>
              rw [e6] at h
              simp only [Option.some_bind, Option.some.injEq] at h
              subst h
              have x5 := emitChanged_extends ih oracle fuel (w4, s.2) b s5 e5
              have x6 := emitChanged_extends ih oracle fuel s5 _ s6 e6
              have a6 : Attached s6.1 b l := x6.2.2.2.2.1 b l (x5.2.2.2.2.1 b l a4)
              unfold Attached at a6 ⊢
              simp [World.connect, a6]

/-- C14 (amended): `b.addLink(l)` attaches the link `l` to the datum `b`
(subscription of line 54), and the link stays attached across `update`,
`deleteLink` and `connectUpstream` on any datum.  Destroying an attached link
calls `update` of `b`; when that call is not suppressed (no update of `b` in
progress), `b` is recomputed (the log gains a `disconnectFrom` of `b`, which
only `update` of `b` emits), and if the input handler of `b`, its pointer to
the dead link cleared, reports no input, `editable` of `b` is true when the
destruction has been delivered. -/
theorem destroyLink_recomputes_target (ih : InputHandler H) (forget : H → LinkId → H)
    (oracle : Nat → Env) (b : DatumId) (l : LinkId) :
    (∀ fuel s out, addLinkD ih oracle fuel s b l = some out → Attached out.1 b l) ∧
    (∀ fuel (s : World H × Nat) x out, Attached s.1 b l →
      updateD ih oracle fuel s x = some out → Attached out.1 b l) ∧
    (∀ (w w2 : World H) (x u : DatumId), deleteLink ih w x u = some w2 →
      Attached w b l → Attached w2 b l) ∧
    (∀ (w : World H) (x u : DatumId), Attached w b l →
      Attached (connectUpstream w x u).1 b l) ∧
    (∀ fuel (s : World H × Nat) out, Attached s.1 b l →
      (s.1.datums b).recursing = false →
      destroyLinkD ih forget oracle fuel s l = some out →
      s.1.log.count (Event.disconnectFrom b) < out.1.log.count (Event.disconnectFrom b) ∧
      (hasInputValue ih ((forgetLink forget s.1 l).datums b) = false →
        (out.1.datums b).editable = true)) := by
  refine ⟨fun fuel s out h => addLinkD_attached ih oracle fuel s b l out h,
    fun fuel s x out ha h => (updateD_extends ih oracle fuel s x out h).2.2.2.2.1 b l ha,
    fun w w2 x u hd h => attached_deleteLink ih w w2 x u b l hd h,
    fun w x u h => attached_connectUpstream w x u b l h, ?_⟩
  intro fuel s out hatt hr hd
  simp only [destroyLinkD, Option.map_eq_some'] at hd
  obtain ⟨s1, hfold, hout⟩ := hd
  subst hout
  have hm := attached_mem_destroyedReceivers s.1 b l hatt
  obtain ⟨acc, mid, a1, a2, a3⟩ := foldlM_mem ih (deliverD ih oracle fuel)
    (fun acc x o ho => deliverD_extends ih oracle fuel acc x o ho) _ _ hm _ s1 hfold
  have hracc : (acc.1.datums b).recursing = false := by
    rw [a1.2.1 b]; exact hr
  obtain ⟨e1, e2⟩ := updateD_self ih oracle fuel acc b mid hracc a2
  have c1 := a1.count_le (Event.disconnectFrom b)
  have c3 := a3.count_le (Event.disconnectFrom b)
  refine ⟨?_, ?_⟩
  · show s.1.log.count (Event.disconnectFrom b) < s1.1.log.count (Event.disconnectFrom b)
    have c0 : (forgetLink forget s.1 l).log = s.1.log := rfl
    rw [c0] at c1
    omega
  · intro hin
    show (s1.1.datums b).editable = true
    rw [a3.2.2.2.2.2 b e1]
    simp only [canEdit]
    have hh : (s1.1.datums b).input_handler =
        ((forgetLink forget s.1 l).datums b).input_handler := by
      rw [a3.1 b, (updateD_extends ih oracle fuel acc b mid a2).1 b, a1.1 b]
    rw [hasInputValue_congr ih hh, hin]
    rfl

/-- Witness of C14 (amended): link 0 has been added to datum 0 and datum 0
updated (`editable` is false, the handler holds the link); the link is
destroyed. -/
theorem destroyLink_recomputes_target_witness :
    (Attached worldLinkedUpdated 0 0 ∧ (worldLinkedUpdated.datums 0).recursing = false ∧
      (worldLinkedUpdated.datums 0).editable = false ∧
      hasInputValue oneLink ((forgetLink oneLinkForget worldLinkedUpdated 0).datums 0) = false ∧
      (destroyLinkD oneLink oneLinkForget (oracleConst (sampleEnv (some 5) "5")) 1
        (worldLinkedUpdated, 0) 0).isSome = true) ∧
    ∀ out, destroyLinkD oneLink oneLinkForget (oracleConst (sampleEnv (some 5) "5")) 1
        (worldLinkedUpdated, 0) 0 = some out →
      worldLinkedUpdated.log.count (Event.disconnectFrom 0) <
        out.1.log.count (Event.disconnectFrom 0) ∧
      (out.1.datums 0).editable = true :=
  ⟨⟨by unfold Attached; decide, by decide, by decide, by decide, by decide⟩,
    fun out h =>
      ⟨((destroyLink_recomputes_target oneLink oneLinkForget
          (oracleConst (sampleEnv (some 5) "5")) 0 0).2.2.2.2 1 (worldLinkedUpdated, 0) out
          (by unfold Attached; decide) (by decide) h).1,
        ((destroyLink_recomputes_target oneLink oneLinkForget
          (oracleConst (sampleEnv (some 5) "5")) 0 0).2.2.2.2 1 (worldLinkedUpdated, 0) out
          (by unfold Attached; decide) (by decide) h).2 (by decide)⟩⟩

/-- C14 as stated fails when the call of `update` is suppressed: link 0 is
attached to datum 0, `editable` of datum 0 is false, the recursion flag of
datum 0 is raised.  The link is destroyed and the handler then reports no
input, but `update` returns at line 90: `editable` is still false. -/
theorem destroyLink_suppressed_keeps_editable :
    Attached (setRecursing worldLinkedUpdated 0 true) 0 0 ∧
    ((setRecursing worldLinkedUpdated 0 true).datums 0).editable = false ∧
    hasInputValue oneLink
      ((forgetLink oneLinkForget (setRecursing worldLinkedUpdated 0 true) 0).datums 0) = false ∧
    (destroyLinkD oneLink oneLinkForget (oracleConst (sampleEnv (some 5) "5")) 2
      (setRecursing worldLinkedUpdated 0 true, 0) 0).map
      (fun s => ((s.1.datums 0).editable, hasInputValue oneLink (s.1.datums 0))) =
      some (false, false) := by
  refine ⟨by unfold Attached; decide, by decide, by decide, by decide⟩

/-! ## The post-init latch over sequences of calls -/

theorem updateSeq_fresh (ih : InputHandler H) (steps : List (Bool × Env)) (w : World H)
    (d : DatumId) (hp : (w.datums d).post_init_called = false) :
    (updateSeq ih steps w d).log.count (Event.onNameChange (w.datums d).objectName) =
      w.log.count (Event.onNameChange (w.datums d).objectName) +
        (if steps.any (fun st => !st.1) then 1 else 0) ∧
    ((updateSeq ih steps w d).datums d).post_init_called = steps.any (fun st => !st.1) := by
  induction steps generalizing w with
  | nil => simp [updateSeq, hp]
  | cons st rest ih0 =>
      obtain ⟨r, env⟩ := st
      simp only [updateSeq]
      cases r
      · have hr : ((setRecursing w d false).datums d).recursing = false := by
          rw [setRecursing_datums_self]
        obtain ⟨h1, h2, h3⟩ := update_onNameChange ih env (setRecursing w d false) d hr
        have hn : ((setRecursing w d false).datums d).objectName = (w.datums d).objectName := by
          rw [setRecursing_datums_self]
        have hq : ((setRecursing w d false).datums d).post_init_called = false := by
          rw [setRecursing_datums_self]; exact hp
        rw [hn] at h1 h3
        rw [hq] at h1
        have := updateSeq_latched ih rest (update ih env (setRecursing w d false) d) d h2
        rw [h3] at this
        refine ⟨?_, ?_⟩
        · rw [this.1, h1]; simp
        · rw [this.2]; simp
      · have hr : ((setRecursing w d true).datums d).recursing = true := by
          rw [setRecursing_datums_self]
        have hu : update ih env (setRecursing w d true) d = setRecursing w d true := by
          simp [update, hr]
        rw [hu]
        have hq : ((setRecursing w d true).datums d).post_init_called = false := by
          rw [setRecursing_datums_self]; exact hp
        have := ih0 (setRecursing w d true) hq
        rw [setRecursing_datums_self] at this
        simpa using this

/-- C12 (amended): for every datum and every sequence of calls of `update` on
it, suppressed or not, the name collaborator is notified of the name of the
datum at most once: exactly once, during the first call that is not suppressed
by the recursion guard, and by no call before or after it.  The latch is down
until that call, set after it, and never returns to false. -/
theorem updateSeq_notifies_name_once (ih : InputHandler H)
    (steps : List (Bool × Env)) (w : World H) (d : DatumId) :
    ((w.datums d).post_init_called = false →
      (updateSeq ih steps w d).log.count (Event.onNameChange (w.datums d).objectName) =
        w.log.count (Event.onNameChange (w.datums d).objectName) +
          (if steps.any (fun st => !st.1) then 1 else 0) ∧
      ((updateSeq ih steps w d).datums d).post_init_called =
        steps.any (fun st => !st.1)) ∧
    ((w.datums d).post_init_called = true →
      (updateSeq ih steps w d).log.count (Event.onNameChange (w.datums d).objectName) =
        w.log.count (Event.onNameChange (w.datums d).objectName) ∧
      ((updateSeq ih steps w d).datums d).post_init_called = true) :=
  ⟨fun hp => updateSeq_fresh ih steps w d hp, fun hp => updateSeq_latched ih steps w d hp⟩

/-- Witness of C12 (amended): the fresh datum 0 gets four calls, the first and
the third suppressed; the name is notified once and the latch is set. -/
theorem updateSeq_notifies_name_once_witness :
    (world1.datums 0).post_init_called = false ∧
    (updateSeq oneLink [(true, sampleEnv (some 4) "4"), (false, sampleEnv (some 5) "5"),
        (true, sampleEnv (some 6) "6"), (false, sampleEnv (some 7) "7")] world1 0).log.count
        (Event.onNameChange (world1.datums 0).objectName) =
      world1.log.count (Event.onNameChange (world1.datums 0).objectName) +
        (if [(true, sampleEnv (some 4) "4"), (false, sampleEnv (some 5) "5"),
          (true, sampleEnv (some 6) "6"), (false, sampleEnv (some 7) "7")].any
            (fun st => !st.1) then 1 else 0) ∧
    ((updateSeq oneLink [(true, sampleEnv (some 4) "4"), (false, sampleEnv (some 5) "5"),
        (true, sampleEnv (some 6) "6"), (false, sampleEnv (some 7) "7")] world1 0).datums
      0).post_init_called =
      [(true, sampleEnv (some 4) "4"), (false, sampleEnv (some 5) "5"),
        (true, sampleEnv (some 6) "6"), (false, sampleEnv (some 7) "7")].any
          (fun st => !st.1) :=
  ⟨by decide, (updateSeq_notifies_name_once oneLink
    [(true, sampleEnv (some 4) "4"), (false, sampleEnv (some 5) "5"),
      (true, sampleEnv (some 6) "6"), (false, sampleEnv (some 7) "7")] world1 0).1
    (by decide)⟩

/-- C12 as stated fails when the first call is suppressed: the recursion flag
of the fresh datum 0 is raised, `update` returns at line 90 before `postInit`:
the name collaborator is not notified during the first call and the latch is
still down after it. -/
theorem first_update_suppressed_no_notification :
    (world1.datums 0).post_init_called = false ∧
    (updateSeq oneLink [(true, sampleEnv (some 5) "5")] world1 0).log.count
      (Event.onNameChange (world1.datums 0).objectName) = 0 ∧
    ((updateSeq oneLink [(true, sampleEnv (some 5) "5")] world1 0).datums
      0).post_init_called = false := by
  decide

end Antimony
